import Mathlib

/-!
# go-asn1-tar2multipart: tar entries to DER records to multipart parts

A shallow embedding of `tar2mpart.go` together with the parts of the Go
standard library it drives (`archive/tar`, `io`, `bytes`, `encoding/asn1`,
`time`, `mime/multipart`, `context`, `errors`), followed by theorems about
the package's functions.

Conventions
* a Go `byte` is a `Nat`, a Go `string` or `[]byte` is a `List Byte`;
* Go `int`, `int64` are `Int` (no arithmetic of the package can overflow);
* a Go `error` result is `Option Error` (`none` is `nil`), a result pair
  `(T, error)` is `Except Error T`;
* loops of the library that have no structural bound carry a fuel argument;
  running out of fuel is the result `none`, and the theorems show that the
  fuel supplied by the callers is always enough.
-/

namespace tar2mpart

abbrev Byte := Nat

/-- Go error values the pipeline can meet. Sentinels of the standard library
are constructors of their own; everything else is kept by its text. -/
inductive Error where
  | EOF
  | ErrUnexpectedEOF
  | ErrHeader
  | Canceled
  | DeadlineExceeded
  | StructuralError (msg : String)
  | New (msg : String)
deriving DecidableEq, Repr

deriving instance DecidableEq for Except

/-- The bytes of an ASCII string literal. -/
def ascii (s : String) : List Byte := s.data.map Char.toNat

/-! ## package time (the observations encoding/asn1 makes) -/

/-- A `time.Time`: an instant (Unix seconds and nanoseconds) presented in a
zone whose offset east of UTC, in seconds, is `offset`. -/
structure Time where
  sec : Int
  nsec : Nat
  offset : Int
deriving DecidableEq, Repr

namespace Time

/-- Proleptic Gregorian date (year, month, day) of the day that lies `z` days
after 1970-01-01. -/
def civil (z : Int) : Int × Nat × Nat :=
  let z := z + 719468
  let era := z / 146097
  let doe := z - era * 146097
  let yoe := (doe - doe / 1460 + doe / 36524 - doe / 146096) / 365
  let y := yoe + era * 400
  let doy := doe - (365 * yoe + yoe / 4 - yoe / 100)
  let mp := (5 * doy + 2) / 153
  let d := doy - (153 * mp + 2) / 5 + 1
  let m := if mp < 10 then mp + 3 else mp - 9
  (if m ≤ 2 then y + 1 else y, m.toNat, d.toNat)

/-- Method `t.Date()`: year, month and day in the zone of `t`. -/
def Date (t : Time) : Int × Nat × Nat := civil ((t.sec + t.offset) / 86400)

/-- Method `t.Year()`. -/
def Year (t : Time) : Int := t.Date.1

/-- Method `t.Clock()`: hour, minute and second within the day, in the zone
of `t`. -/
def Clock (t : Time) : Nat × Nat × Nat :=
  let s := ((t.sec + t.offset) % 86400).toNat
  (s / 3600, s % 3600 / 60, s % 60)

/-- Second result of `t.Zone()`: the offset in seconds east of UTC. -/
def Zone (t : Time) : Int := t.offset

end Time

/-! ## tar2mpart.go: enumerations and FileHeader -/

/-- Go type `FileType` (`type FileType asn1.Enumerated`, an `int`). -/
abbrev FileType := Int

def FileTypeUnspecified : FileType := 0x00
def FileTypeRegular : FileType := 0x10
def FileTypeSymlink : FileType := 0x12
def FileTypeDir : FileType := 0x15

/-- Go type `Format` (`type Format asn1.Enumerated`, an `int`). -/
abbrev Format := Int

def FormatUnspecified : Format := 0x00
def FormatUSTAR : Format := 0x10
def FormatPAX : Format := 0x20
def FormatGNU : Format := 0x30

structure FileHeader where
  FileType : FileType
  Name : List Byte
  Linkname : List Byte
  Size : Int
  Mode : Int
  Uid : Int
  Gid : Int
  Uname : List Byte
  Gname : List Byte
  Modified : Time
  Format : Format
deriving DecidableEq, Repr

/-! ## package archive/tar: Header and its constants -/

namespace tar

/-- Type flags of `archive/tar` (`TypeReg = '0'`, `TypeSymlink = '2'`,
`TypeDir = '5'`). -/
def TypeReg : Byte := 48
def TypeSymlink : Byte := 50
def TypeDir : Byte := 53

/-- Format constants of `archive/tar`: `FormatUnknown`, then one bit each. -/
def FormatUnknown : Int := 0
def FormatUSTAR : Int := 2
def FormatPAX : Int := 4
def FormatGNU : Int := 8

/-- The fields of `tar.Header` that the package reads. -/
structure Header where
  Typeflag : Byte
  Name : List Byte
  Linkname : List Byte
  Size : Int
  Mode : Int
  Uid : Int
  Gid : Int
  Uname : List Byte
  Gname : List Byte
  ModTime : Time
  Format : Int
deriving DecidableEq, Repr

end tar

/-! ## tar2mpart.go: TarHeader -/

structure TarHeader where
  Header : tar.Header
deriving DecidableEq, Repr

namespace TarHeader

def ToFileType (t : TarHeader) : FileType :=
  if t.Header.Typeflag = tar.TypeReg then FileTypeRegular
  else if t.Header.Typeflag = tar.TypeSymlink then FileTypeSymlink
  else if t.Header.Typeflag = tar.TypeDir then FileTypeDir
  else FileTypeUnspecified

def FileName (t : TarHeader) : List Byte := t.Header.Name
def LinkName (t : TarHeader) : List Byte := t.Header.Linkname

def FileSize (t : TarHeader) : Int := t.Header.Size
def FileMode (t : TarHeader) : Int := t.Header.Mode

def UserID (t : TarHeader) : Int := t.Header.Uid
def GroupID (t : TarHeader) : Int := t.Header.Gid

def UserName (t : TarHeader) : List Byte := t.Header.Uname
def GroupName (t : TarHeader) : List Byte := t.Header.Gname

def Modified (t : TarHeader) : Time := t.Header.ModTime

def TarFormat (t : TarHeader) : Format :=
  if t.Header.Format = tar.FormatUSTAR then FormatUSTAR
  else if t.Header.Format = tar.FormatPAX then FormatPAX
  else if t.Header.Format = tar.FormatGNU then FormatGNU
  else FormatUnspecified

def ToHeader (t : TarHeader) : FileHeader :=
  { FileType := t.ToFileType
    Name := t.FileName
    Linkname := t.LinkName
    Size := t.FileSize
    Mode := t.FileMode
    Uid := t.UserID
    Gid := t.GroupID
    Uname := t.UserName
    Gname := t.GroupName
    Modified := t.Modified
    Format := t.TarFormat }

end TarHeader

structure TarItemAsn1 where
  FileHeader : FileHeader
  Content : List Byte
deriving DecidableEq, Repr

/-! ## package unicode/utf8 -/

namespace utf8

def RuneSelf : Nat := 0x80

/-- Table `first` joined with `acceptRanges`: for a leading byte, the size of
the sequence and the range allowed for its second byte; `none` is `xx`. -/
def first (b : Byte) : Option (Nat × Nat × Nat) :=
  if 0xC2 ≤ b ∧ b ≤ 0xDF then some (2, 0x80, 0xBF)
  else if b = 0xE0 then some (3, 0xA0, 0xBF)
  else if 0xE1 ≤ b ∧ b ≤ 0xEC then some (3, 0x80, 0xBF)
  else if b = 0xED then some (3, 0x80, 0x9F)
  else if 0xEE ≤ b ∧ b ≤ 0xEF then some (3, 0x80, 0xBF)
  else if b = 0xF0 then some (4, 0x90, 0xBF)
  else if 0xF1 ≤ b ∧ b ≤ 0xF3 then some (4, 0x80, 0xBF)
  else if b = 0xF4 then some (4, 0x80, 0x8F)
  else none

/-- Continuation byte range `locb..hicb`. -/
def isCont (c : Byte) : Bool := 0x80 ≤ c && c ≤ 0xBF

/-- Function `utf8.ValidString`. -/
def ValidString : List Byte → Bool
  | [] => true
  | si :: rest =>
    if si < RuneSelf then ValidString rest
    else
      match first si, rest with
      | some (2, lo, hi), c1 :: r => (lo ≤ c1 && c1 ≤ hi) && ValidString r
      | some (3, lo, hi), c1 :: c2 :: r =>
        (lo ≤ c1 && c1 ≤ hi) && isCont c2 && ValidString r
      | some (4, lo, hi), c1 :: c2 :: c3 :: r =>
        (lo ≤ c1 && c1 ≤ hi) && isCont c2 && isCont c3 && ValidString r
      | _, _ => false

end utf8

/-! ## package encoding/asn1: Marshal -/

namespace asn1

def TagInteger : Nat := 2
def TagOctetString : Nat := 4
def TagEnum : Nat := 10
def TagUTF8String : Nat := 12
def TagSequence : Nat := 16
def TagPrintableString : Nat := 19
def TagUTCTime : Nat := 23
def TagGeneralizedTime : Nat := 24

def ClassUniversal : Nat := 0

/-- The kinds (`reflect.Kind`) of the Go types that reach Marshal here. -/
inductive Kind where
  | int
  | int64
  | string
  | byteSlice
  | struct
deriving DecidableEq, Repr

/-- The Go types (`reflect.Type` identities) that reach Marshal here:
`asn1.Enumerated`, `time.Time`, the predeclared `int`, `int64`, `string`,
`[]byte`, and the package's own `FileType`, `Format`, `FileHeader` and
`TarItemAsn1`. -/
inductive GoType where
  | Enumerated
  | Time
  | int
  | int64
  | string
  | byteSlice
  | FileType
  | Format
  | FileHeader
  | TarItemAsn1
deriving DecidableEq, Repr

/-- Method `reflect.Type.Kind`: a defined type has the kind of its
underlying type. -/
def GoType.Kind : GoType → Kind
  | .Enumerated => .int
  | .Time => .struct
  | .int => .int
  | .int64 => .int64
  | .string => .string
  | .byteSlice => .byteSlice
  | .FileType => .int
  | .Format => .int
  | .FileHeader => .struct
  | .TarItemAsn1 => .struct

def enumeratedType : GoType := .Enumerated
def timeType : GoType := .Time

/-- A Go value as reflection presents it to Marshal; a struct value lists
its fields in declaration order, each with its `asn1` struct tag. -/
inductive Value where
  | int (t : GoType) (v : Int)
  | string (s : List Byte)
  | bytes (b : List Byte)
  | time (t : Time)
  | struct (t : GoType) (fields : List (Value × String))

/-- Method `reflect.Value.Type`. -/
def Value.typ : Value → GoType
  | .int t _ => t
  | .string _ => .string
  | .bytes _ => .byteSlice
  | .time _ => .Time
  | .struct t _ => t

/-- The parts of `fieldParameters` that a struct tag of this package can
set. -/
structure fieldParameters where
  stringType : Nat
  timeType : Nat
deriving DecidableEq, Repr

/-- Function `parseFieldParameters` on a struct tag of one part. -/
def parseFieldParameters (str : String) : fieldParameters :=
  match str with
  | "generalized" => { stringType := 0, timeType := TagGeneralizedTime }
  | "utc" => { stringType := 0, timeType := TagUTCTime }
  | "utf8" => { stringType := TagUTF8String, timeType := 0 }
  | _ => { stringType := 0, timeType := 0 }

/-- Function `getUniversalType`: matchAny, tagNumber, isCompound, ok. The
type switch compares type identities; only then comes the kind. -/
def getUniversalType (t : GoType) : Bool × Nat × Bool × Bool :=
  if t = timeType then (false, TagUTCTime, false, true)
  else if t = enumeratedType then (false, TagEnum, false, true)
  else
    match t.Kind with
    | .int => (false, TagInteger, false, true)
    | .int64 => (false, TagInteger, false, true)
    | .struct => (false, TagSequence, true, true)
    | .byteSlice => (false, TagOctetString, false, true)
    | .string => (false, TagPrintableString, false, true)

structure tagAndLength where
  cls : Nat
  tag : Nat
  length : Nat
  isCompound : Bool
deriving DecidableEq, Repr

def base128IntLength.loop : Nat → Nat → Nat → Nat
  | 0, _, l => l
  | fuel + 1, i, l => if i > 0 then base128IntLength.loop fuel (i >>> 7) (l + 1) else l

def base128IntLength (n : Nat) : Nat :=
  if n = 0 then 1 else base128IntLength.loop n n 0

def appendBase128Int (dst : List Byte) (n : Nat) : List Byte :=
  dst ++ (List.range (base128IntLength n)).reverse.map (fun i =>
    let o := ((n >>> (i * 7)) % 256) &&& 0x7f
    if i ≠ 0 then o ||| 0x80 else o)

def lengthLength.loop : Nat → Nat → Nat → Nat
  | 0, _, numBytes => numBytes
  | fuel + 1, i, numBytes =>
    if i > 255 then lengthLength.loop fuel (i >>> 8) (numBytes + 1) else numBytes

/-- Function `lengthLength`; the loop shifts at most `i` times. -/
def lengthLength (i : Nat) : Nat := lengthLength.loop i i 1

/-- Function `appendLength`: for n from lengthLength(i) down to 1, the byte
`byte(i >> ((n-1)*8))`. -/
def appendLength (dst : List Byte) (i : Nat) : List Byte :=
  dst ++ (List.range (lengthLength i)).reverse.map (fun m => (i >>> (m * 8)) % 256)

def appendTagAndLength (dst : List Byte) (t : tagAndLength) : List Byte :=
  let b := (t.cls <<< 6) % 256
  let b := if t.isCompound then b ||| 0x20 else b
  let dst :=
    if t.tag ≥ 31 then appendBase128Int (dst ++ [b ||| 0x1f]) t.tag
    else dst ++ [b ||| (t.tag % 256)]
  if t.length ≥ 128 then
    appendLength (dst ++ [0x80 ||| (lengthLength t.length % 256)]) t.length
  else dst ++ [t.length % 256]

def int64Encoder.Len.up : Nat → Int → Nat → Int × Nat
  | 0, i, n => (i, n)
  | fuel + 1, i, n => if i > 127 then int64Encoder.Len.up fuel (i >>> (8 : Nat)) (n + 1) else (i, n)

def int64Encoder.Len.down : Nat → Int → Nat → Int × Nat
  | 0, i, n => (i, n)
  | fuel + 1, i, n => if i < -128 then int64Encoder.Len.down fuel (i >>> (8 : Nat)) (n + 1) else (i, n)

/-- Method `int64Encoder.Len`: the loop `for i > 127` and then the loop
`for i < -128`, each shifting at most `|i|` times. -/
def int64Encoder.Len (i : Int) : Nat :=
  let r := int64Encoder.Len.up i.natAbs i 1
  (int64Encoder.Len.down r.1.natAbs r.1 r.2).2

/-- Method `int64Encoder.Encode`: `dst[j] = byte(i >> ((n-1-j)*8))`. -/
def int64Encoder.Encode (i : Int) : List Byte :=
  (List.range (int64Encoder.Len i)).map (fun j =>
    ((i >>> ((int64Encoder.Len i - 1 - j) * 8)) % 256).toNat)

def isPrintable (b : Byte) : Bool :=
  (97 ≤ b && b ≤ 122) || (65 ≤ b && b ≤ 90) || (48 ≤ b && b ≤ 57) ||
  (39 ≤ b && b ≤ 41) || (43 ≤ b && b ≤ 47) ||
  b == 32 || b == 58 || b == 61 || b == 63

/-- Function `makeUTF8String`: the bytes of the string as they are
(`stringEncoder(s)`), with no check. -/
def makeUTF8String (s : List Byte) : List Byte := s

/-- Function `outsideUTCRange`: by `t.Year()`, the year in the zone of `t`. -/
def outsideUTCRange (t : Time) : Bool :=
  let year := t.Year
  year < 1950 || year ≥ 2050

/-- Function `appendTwoDigits`; every caller passes a value that is not
negative. -/
def appendTwoDigits (dst : List Byte) (v : Nat) : List Byte :=
  dst ++ [(48 + v / 10 % 10) % 256, (48 + v % 10) % 256]

def appendFourDigits (dst : List Byte) (v : Nat) : List Byte :=
  dst ++ [(48 + v / 1000 % 10) % 256, (48 + v / 100 % 10) % 256,
    (48 + v / 10 % 10) % 256, (48 + v % 10) % 256]

/-- Function `appendTimeCommon`; Go integer division truncates. -/
def appendTimeCommon (dst : List Byte) (t : Time) : List Byte :=
  let month := t.Date.2.1
  let day := t.Date.2.2
  let dst := appendTwoDigits dst month
  let dst := appendTwoDigits dst day
  let dst := appendTwoDigits dst t.Clock.1
  let dst := appendTwoDigits dst t.Clock.2.1
  let dst := appendTwoDigits dst t.Clock.2.2
  let offset := t.Zone
  if Int.tdiv offset 60 = 0 then dst ++ [90]
  else
    let dst := if offset > 0 then dst ++ [43] else dst ++ [45]
    let offsetMinutes := (Int.tdiv offset 60).natAbs
    let dst := appendTwoDigits dst (offsetMinutes / 60)
    appendTwoDigits dst (offsetMinutes % 60)

def appendUTCTime (dst : List Byte) (t : Time) : Except Error (List Byte) :=
  let year := t.Year
  if 1950 ≤ year ∧ year < 2000 then
    .ok (appendTimeCommon (appendTwoDigits dst (year - 1900).toNat) t)
  else if 2000 ≤ year ∧ year < 2050 then
    .ok (appendTimeCommon (appendTwoDigits dst (year - 2000).toNat) t)
  else .error (.StructuralError "cannot represent time as UTCTime")

def appendGeneralizedTime (dst : List Byte) (t : Time) : Except Error (List Byte) :=
  let year := t.Year
  if year < 0 ∨ year > 9999 then
    .error (.StructuralError "cannot represent time as GeneralizedTime")
  else .ok (appendTimeCommon (appendFourDigits dst year.toNat) t)

def makeUTCTime (t : Time) : Except Error (List Byte) := appendUTCTime [] t

def makeGeneralizedTime (t : Time) : Except Error (List Byte) := appendGeneralizedTime [] t

/-- Method `(*taggedEncoder).Encode`: the identifier and length octets, then
the body. -/
def taggedEncoder (tag : Nat) (isCompound : Bool) (body : List Byte) : List Byte :=
  appendTagAndLength []
    { cls := ClassUniversal, tag := tag, length := body.length, isCompound := isCompound } ++ body

/-- The `switch tag` of `makeField`: the tag a string or a time is finally
written with. -/
def makeField.switchTag (v : Value) (params : fieldParameters) (tag : Nat) : Except Error Nat :=
  if tag = TagPrintableString then
    if params.stringType = 0 then
      match v with
      | .string s =>
        if s.any (fun r => decide (r ≥ utf8.RuneSelf) || !isPrintable r) then
          if !utf8.ValidString s then .error (.New "asn1: string not valid UTF-8")
          else .ok TagUTF8String
        else .ok tag
      | _ => .ok tag
    else .ok params.stringType
  else if tag = TagUTCTime then
    match v with
    | .time t =>
      if params.timeType = TagGeneralizedTime || outsideUTCRange t then .ok TagGeneralizedTime
      else .ok tag
    | _ => .ok tag
  else .ok tag

/-- Function `makeField` around its call of `makeBody`, whose result is
`body`: the checks on the universal type, the final tag, and the identifier
and length octets put before the body. -/
def makeField.wrap (v : Value) (params : fieldParameters)
    (body : Except Error (List Byte)) : Except Error (List Byte) :=
  match getUniversalType v.typ with
  | (matchAny, tag, isCompound, ok) =>
    if !ok || matchAny then .error (.StructuralError "unknown Go type")
    else if params.timeType ≠ 0 ∧ tag ≠ TagUTCTime then
      .error (.StructuralError "explicit time type given to non-time member")
    else if params.stringType ≠ 0 ∧ tag ≠ TagPrintableString then
      .error (.StructuralError "explicit string type given to non-string member")
    else
      match makeField.switchTag v params tag with
      | .error e => .error e
      | .ok tag =>
        match body with
        | .error e => .error e
        | .ok b => .ok (taggedEncoder tag isCompound b)

mutual
/-- Function `makeBody`. -/
def makeBody : Value → fieldParameters → Except Error (List Byte)
  | .time t, params =>
    if params.timeType = TagGeneralizedTime || outsideUTCRange t then makeGeneralizedTime t
    else makeUTCTime t
  | .int _ v, _ => .ok (int64Encoder.Encode v)
  | .struct _ fields, _ => makeFields fields
  | .bytes b, _ => .ok b
  | .string s, _ => .ok (makeUTF8String s)
/-- The loop of `makeBody` over the fields of a struct: `makeField` on each
field with its parsed struct tag, stopping at the first error; the encoders
are written one after the other. -/
def makeFields : List (Value × String) → Except Error (List Byte)
  | [] => .ok []
  | (v, tag) :: rest =>
    match makeField.wrap v (parseFieldParameters tag) (makeBody v (parseFieldParameters tag)) with
    | .error e => .error e
    | .ok m =>
      match makeFields rest with
      | .error e => .error e
      | .ok ms => .ok (m ++ ms)
end

def makeField (v : Value) (params : fieldParameters) : Except Error (List Byte) :=
  makeField.wrap v params (makeBody v params)

/-- Function `asn1.Marshal`: `makeField` with empty parameters, encoded. -/
def Marshal (val : Value) : Except Error (List Byte) :=
  makeField val (parseFieldParameters "")

end asn1

/-! ## tar2mpart.go: ToDerBytes -/

/-- The struct value of a `FileHeader`: its fields in declaration order with
their struct tags. -/
def FileHeader.toValue (h : FileHeader) : asn1.Value :=
  .struct .FileHeader
    [ (.int .FileType h.FileType, ""),
      (.string h.Name, "utf8"),
      (.string h.Linkname, "utf8"),
      (.int .int64 h.Size, ""),
      (.int .int64 h.Mode, ""),
      (.int .int h.Uid, ""),
      (.int .int h.Gid, ""),
      (.string h.Uname, "utf8"),
      (.string h.Gname, "utf8"),
      (.time h.Modified, ""),
      (.int .Format h.Format, "") ]

def FileHeader.ToDerBytes (h : FileHeader) : Except Error (List Byte) :=
  asn1.Marshal h.toValue

/-- The struct value of a `TarItemAsn1`: the embedded `FileHeader`, then
`Content`. -/
def TarItemAsn1.toValue (i : TarItemAsn1) : asn1.Value :=
  .struct .TarItemAsn1 [ (i.FileHeader.toValue, ""), (.bytes i.Content, "") ]

def TarItemAsn1.ToDerBytes (i : TarItemAsn1) : Except Error (List Byte) :=
  asn1.Marshal i.toValue

/-! ## package archive/tar: Reader, as seen through Next and Read -/

namespace tar

/-- One member of the archive as the reader meets it: the parsed header, the
bytes of the body that the stream really holds, and `fault`, the error the
stream gives once those bytes are used up when the body is cut short or
damaged; `fault = none` is a body that is whole. (A failure that lies behind
a whole body, in the padding or the next header, is the failure of the next
header read.) -/
structure Member where
  hdr : Header
  body : List Byte
  fault : Option Error
deriving DecidableEq, Repr

/-- State of a `*tar.Reader`.
* `rest`: the members `Next` has not reached yet;
* `trailer`: what `Next` returns after the last member, `io.EOF` for an
  archive that ends well, any other error for a header that fails to parse;
* `curr`, `fault`: unread body bytes of the current member and the error
  lying behind them;
* `sched`: for the coming calls of `Read`, how many bytes the transport
  hands over at most in each (a short read); past the schedule every call
  is served in full. -/
structure Reader where
  rest : List Member
  trailer : Error
  curr : List Byte
  fault : Option Error
  sched : List Nat
deriving DecidableEq, Repr

/-- Method `(*tar.Reader).Next`: skip what is left of the current body (a
damaged body fails here when its error was not met by `Read`), then hand
out the next header. -/
def Reader.Next (r : Reader) : Except Error Header × Reader :=
  match r.fault with
  | some e => (.error e, r)
  | none =>
    match r.rest with
    | [] => (.error r.trailer, r)
    | m :: ms => (.ok m.hdr, { r with rest := ms, curr := m.body, fault := m.fault })

/-- Method `(*tar.Reader).Read` into a slice of length `n`: the bytes read and
the error. The last bytes of a sound body come together with `io.EOF`. -/
def Reader.Read (r : Reader) (n : Nat) : (List Byte × Option Error) × Reader :=
  if r.curr.isEmpty then (([], some (r.fault.getD Error.EOF)), r)
  else
    let m :=
      match r.sched with
      | [] => min n r.curr.length
      | c :: _ => min n (min c r.curr.length)
    let r1 : Reader := { r with curr := r.curr.drop m, sched := r.sched.tail }
    if r1.curr.isEmpty ∧ r.fault = none then ((r.curr.take m, some Error.EOF), r1)
    else ((r.curr.take m, none), r1)

end tar

/-! ## package io: LimitedReader; package bytes: Buffer; io.Copy -/

namespace io

structure LimitedReader where
  R : tar.Reader
  N : Int
deriving DecidableEq, Repr

/-- Method `(*LimitedReader).Read` into a slice of length `n`. -/
def LimitedReader.Read (l : LimitedReader) (n : Nat) :
    (List Byte × Option Error) × LimitedReader :=
  if l.N ≤ 0 then (([], some Error.EOF), l)
  else
    let n := if (n : Int) > l.N then l.N.toNat else n
    match l.R.Read n with
    | ((data, err), R) => ((data, err), { R := R, N := l.N - data.length })

end io

namespace bytes

def MinRead : Nat := 512

/-- A `bytes.Buffer`: its contents, and `room`, the spare capacity beyond
`MinRead` that `grow` leaves when the contents have a given length. -/
structure Buffer where
  buf : List Byte
  room : Nat → Nat

def Buffer.Reset (b : Buffer) : Buffer := { b with buf := [] }

def Buffer.Bytes (b : Buffer) : List Byte := b.buf

/-- The loop of `(*Buffer).ReadFrom`: read into the free space (at least
`MinRead` bytes) until the reader reports `io.EOF` (result `nil`) or
another error. -/
def Buffer.ReadFrom.loop :
    Nat → Buffer → io.LimitedReader → Int → Option ((Int × Option Error) × Buffer × io.LimitedReader)
  | 0, _, _, _ => none
  | fuel + 1, b, r, n =>
    match r.Read (MinRead + b.room b.buf.length) with
    | ((data, e), r) =>
      let b : Buffer := { b with buf := b.buf ++ data }
      let n := n + data.length
      if e = some Error.EOF then some ((n, none), b, r)
      else
        match e with
        | some e => some ((n, some e), b, r)
        | none => Buffer.ReadFrom.loop fuel b r n

end bytes

/-- Function `io.Copy(dst, src)` for a `*bytes.Buffer` and a
`*io.LimitedReader`: the source has no `WriteTo`, the buffer has `ReadFrom`,
so the copy is `dst.ReadFrom(src)`. Every turn of the loop but the last uses
up a scheduled short read or at least one byte of the body. -/
def io.Copy (dst : bytes.Buffer) (src : io.LimitedReader) :
    Option ((Int × Option Error) × bytes.Buffer × io.LimitedReader) :=
  bytes.Buffer.ReadFrom.loop (src.R.sched.length + src.R.curr.length + 1) dst src 0

/-! ## tar2mpart.go: TarReader.ToItems -/

/-- Go type `iter.Seq2[TarItemAsn1, error]`: a function that pushes outcomes
into `yield` until `yield` returns false. The state of the consumer (the
variables the loop body captures) is threaded as `κ`. -/
abbrev Seq2 (κ : Type) := (TarItemAsn1 → Option Error → κ → Bool × κ) → κ → Option κ

/-- The zero `time.Time`: January 1, year 1, 00:00:00 UTC. -/
def Time.zero : Time := { sec := -62135596800, nsec := 0, offset := 0 }

/-- The zero value `var empty TarItemAsn1`. -/
def TarItemAsn1.empty : TarItemAsn1 :=
  { FileHeader :=
      { FileType := 0, Name := [], Linkname := [], Size := 0, Mode := 0, Uid := 0, Gid := 0,
        Uname := [], Gname := [], Modified := Time.zero, Format := 0 }
    Content := [] }

structure TarReader where
  Reader : tar.Reader
deriving DecidableEq, Repr

/-- The `for` loop of `ToItems`; one unit of fuel per header read. -/
def TarReader.ToItems.loop {κ : Type} (limit : Int)
    (yield : TarItemAsn1 → Option Error → κ → Bool × κ) :
    Nat → tar.Reader → bytes.Buffer → κ → Option (tar.Reader × κ)
  | 0, _, _, _ => none
  | fuel + 1, r, buf, k =>
    match r.Next with
    | (.error e, r) =>
      if Error.EOF = e then some (r, k)
      else some (r, (yield TarItemAsn1.empty (some e) k).2)
    | (.ok hdr, r) =>
      let buf := buf.Reset
      let limited : io.LimitedReader := { R := r, N := limit }
      match io.Copy buf limited with
      | none => none
      | some ((_, e), buf, limited) =>
        match e with
        | some e => some (limited.R, (yield TarItemAsn1.empty (some e) k).2)
        | none =>
          let th : TarHeader := { Header := hdr }
          let fh : FileHeader := th.ToHeader
          let item : TarItemAsn1 := { FileHeader := fh, Content := buf.Bytes }
          match yield item none k with
          | (false, k) => some (limited.R, k)
          | (true, k) => TarReader.ToItems.loop limit yield fuel limited.R buf k

/-- Running the iterator of `ToItems(limit)` against a consumer: the final
state of the reader and of the consumer. `room` is the capacity policy of
the local `bytes.Buffer`. There is one header read per member and one more
for the end of the archive. -/
def TarReader.ToItems.run {κ : Type} (r : TarReader) (limit : Int) (room : Nat → Nat)
    (yield : TarItemAsn1 → Option Error → κ → Bool × κ) (k : κ) : Option (tar.Reader × κ) :=
  TarReader.ToItems.loop limit yield (r.Reader.rest.length + 1) r.Reader { buf := [], room := room } k

def TarReader.ToItems {κ : Type} (r : TarReader) (limit : Int) (room : Nat → Nat) : Seq2 κ :=
  fun yield k => (TarReader.ToItems.run r limit room yield k).map Prod.snd

/-- A consumer that keeps every outcome and never stops (`for item, e :=
range seq` with a body that appends and never breaks). -/
def collect (item : TarItemAsn1) (e : Option Error)
    (acc : List (TarItemAsn1 × Option Error)) : Bool × List (TarItemAsn1 × Option Error) :=
  (true, acc ++ [(item, e)])

/-- All outcomes of a sequence, in order. -/
def outcomes (i : Seq2 (List (TarItemAsn1 × Option Error))) :
    Option (List (TarItemAsn1 × Option Error)) :=
  i collect []

/-- The sequence that yields the given outcomes in order, and stops when the
consumer does. -/
def seqOf {κ : Type} : List (TarItemAsn1 × Option Error) → Seq2 κ
  | [], _, k => some k
  | (item, e) :: rest, yield, k =>
    match yield item e k with
    | (false, k) => some k
    | (true, k) => seqOf rest yield k

/-! ## package mime/multipart: Writer -/

namespace multipart

/-- The `io.Writer` under the multipart writer: what it has taken so far,
and for its coming `Write` calls whether each fails (`some (n, e)`: only
`n` bytes are taken and `e` is returned); past the list every call
succeeds. -/
structure Sink where
  out : List Byte
  faults : List (Option (Nat × Error))
deriving DecidableEq, Repr

def Sink.Write (w : Sink) (p : List Byte) : (Nat × Option Error) × Sink :=
  match w.faults with
  | some (n, e) :: fs => ((min n p.length, some e), { out := w.out ++ p.take n, faults := fs })
  | none :: fs => ((p.length, none), { out := w.out ++ p, faults := fs })
  | [] => ((p.length, none), { out := w.out ++ p, faults := [] })

structure part where
  closed : Bool
  we : Option Error
deriving DecidableEq, Repr

/-- State of a `*multipart.Writer`; `lastpart` holds the one part that can
be live. -/
structure Writer where
  w : Sink
  boundary : List Byte
  lastpart : Option part
deriving DecidableEq, Repr

/-- Function `multipart.NewWriter`; the random boundary is an argument. -/
def NewWriter (w : Sink) (boundary : List Byte) : Writer :=
  { w := w, boundary := boundary, lastpart := none }

def part.close (p : part) : Option Error × part := (p.we, { p with closed := true })

/-- Method `(*Writer).CreatePart` for a header given as its sorted list of
key and value; the new part is `lastpart` of the resulting writer. -/
def Writer.CreatePart (w : Writer) (header : List (List Byte × List Byte)) :
    Option Error × Writer :=
  let closed : Option Error × Writer :=
    match w.lastpart with
    | some p => (p.close.1, { w with lastpart := some p.close.2 })
    | none => (none, w)
  match closed with
  | (some err, w) => (some err, w)
  | (none, w) =>
    let b :=
      if w.lastpart.isSome then ascii "\r\n--" ++ w.boundary ++ ascii "\r\n"
      else ascii "--" ++ w.boundary ++ ascii "\r\n"
    let b := header.foldl (fun b kv => b ++ kv.1 ++ ascii ": " ++ kv.2 ++ ascii "\r\n") b
    let b := b ++ ascii "\r\n"
    match w.w.Write b with
    | ((_, some err), s) => (some err, { w with w := s })
    | ((_, none), s) => (none, { w with w := s, lastpart := some { closed := false, we := none } })

/-- Method `(*part).Write` on the live part of the writer. -/
def Writer.partWrite (w : Writer) (d : List Byte) : (Nat × Option Error) × Writer :=
  match w.lastpart with
  | none => ((0, some (Error.New "multipart: no part")), w)
  | some p =>
    if p.closed then ((0, some (Error.New "multipart: can't write to finished part")), w)
    else
      match w.w.Write d with
      | ((n, some err), s) => ((n, some err), { w with w := s, lastpart := some { p with we := some err } })
      | ((n, none), s) => ((n, none), { w with w := s })

/-- Method `(*Writer).Close`. -/
def Writer.Close (w : Writer) : Option Error × Writer :=
  let closed : Option Error × Writer :=
    match w.lastpart with
    | some p =>
      match p.close with
      | (some err, p) => (some err, { w with lastpart := some p })
      | (none, _) => (none, { w with lastpart := none })
    | none => (none, w)
  match closed with
  | (some err, w) => (some err, w)
  | (none, w) =>
    match w.w.Write (ascii "\r\n--" ++ w.boundary ++ ascii "--\r\n") with
    | ((_, err), s) => (err, { w with w := s })

end multipart

/-! ## package context, package errors -/

/-- A `context.Context` as the loop sees it: `poll n` is `ctx.Err()` at the
`n`-th time the loop looks at `ctx.Done()`, `none` while the channel is
still open. -/
structure Context where
  poll : Nat → Option Error

namespace errors

structure joinError where
  errs : List Error
deriving DecidableEq, Repr

/-- Function `errors.Join`: nil when every argument is nil, else an error
that wraps the arguments that are not nil, in order. -/
def Join (errs : List (Option Error)) : Option joinError :=
  if (errs.filter Option.isSome).length = 0 then none
  else some { errs := errs.filterMap id }

end errors

/-! ## tar2mpart.go: MultipartWriter, Writer -/

structure MultipartWriter where
  Writer : multipart.Writer
deriving DecidableEq, Repr

def ContentTypeKey : List Byte := ascii "Content-Type"

def ContentTypeVal : List Byte := ascii "application/asn1-der"

def MultipartWriter.CreateAsn1Header (_w : MultipartWriter) : List (List Byte × List Byte) :=
  [(ContentTypeKey, ContentTypeVal)]

def MultipartWriter.WriteAsn1Bytes (w : MultipartWriter) (der : List Byte) :
    Option Error × MultipartWriter :=
  let hdr := w.CreateAsn1Header
  match w.Writer.CreatePart hdr with
  | (some e, mw) => (some e, { Writer := mw })
  | (none, mw) =>
    match mw.partWrite der with
    | ((_, e), mw) => (e, { Writer := mw })

/-- What the body of the `for ... range i` loop of `WriteItems` captures:
the writer, how often the context was looked at, and the value of an early
`return`. -/
structure WriteItems.State where
  w : MultipartWriter
  polls : Nat
  ret : Option Error
deriving DecidableEq, Repr

/-- The body of the loop of `WriteItems` as the `yield` function handed to
the sequence: false after a `return`. -/
def MultipartWriter.WriteItems.body (ctx : Context) (item : TarItemAsn1) (e : Option Error)
    (s : WriteItems.State) : Bool × WriteItems.State :=
  match ctx.poll s.polls with
  | some ce => (false, { s with polls := s.polls + 1, ret := some ce })
  | none =>
    let s : WriteItems.State := { s with polls := s.polls + 1 }
    match e with
    | some e => (false, { s with ret := some e })
    | none =>
      match item.ToDerBytes with
      | .error e => (false, { s with ret := some e })
      | .ok der =>
        match s.w.WriteAsn1Bytes der with
        | (some e, w) => (false, { s with w := w, ret := some e })
        | (none, w) => (true, { s with w := w })

def MultipartWriter.WriteItems (w : MultipartWriter) (ctx : Context)
    (i : Seq2 WriteItems.State) : Option (Option Error × MultipartWriter) :=
  (i (MultipartWriter.WriteItems.body ctx) { w := w, polls := 0, ret := none }).map
    (fun s => (s.ret, s.w))

structure Writer where
  Writer : multipart.Sink
deriving DecidableEq, Repr

/-- Method `Writer.WriteAll`: the returned error and the multipart writer
(with the output stream in it) as the call leaves them. -/
def Writer.WriteAll (w : tar2mpart.Writer) (boundary : List Byte) (ctx : Context)
    (i : Seq2 WriteItems.State) : Option (Option errors.joinError × multipart.Writer) :=
  let wtr : multipart.Writer := multipart.NewWriter w.Writer boundary
  match MultipartWriter.WriteItems { Writer := wtr } ctx i with
  | none => none
  | some (e, mw) =>
    match mw.Writer.Close with
    | (ce, wtr) => some (errors.Join [e, ce], wtr)

/-! ## Reference definitions, written from the specification -/

namespace Spec

/-- Header Mapper table of the specification: regular file, symbolic link
and directory map to Regular, Symlink and Directory; anything else maps to
Unspecified. -/
def fileTypeOf (kind : Byte) : FileType :=
  if kind = tar.TypeReg then FileTypeRegular
  else if kind = tar.TypeSymlink then FileTypeSymlink
  else if kind = tar.TypeDir then FileTypeDir
  else FileTypeUnspecified

/-- Sub-format detection of the specification: USTAR, PAX and GNU map to
themselves; anything else maps to Unspecified. -/
def formatOf (fmt : Int) : Format :=
  if fmt = tar.FormatUSTAR then FormatUSTAR
  else if fmt = tar.FormatPAX then FormatPAX
  else if fmt = tar.FormatGNU then FormatGNU
  else FormatUnspecified

/-- The header the specification asks for: the two enumerations mapped, all
other fields copied. -/
def headerOf (h : tar.Header) : FileHeader :=
  { FileType := fileTypeOf h.Typeflag
    Name := h.Name
    Linkname := h.Linkname
    Size := h.Size
    Mode := h.Mode
    Uid := h.Uid
    Gid := h.Gid
    Uname := h.Uname
    Gname := h.Gname
    Modified := h.ModTime
    Format := formatOf h.Format }

end Spec

namespace Spec

/-- One part of the multi-part body as the specification frames it: the
boundary line (the very first one without the leading line break), the one
header declaring the media type, an empty line, then the DER bytes as the
entire body. -/
def partBytes (boundary : List Byte) (isFirst : Bool) (der : List Byte) : List Byte :=
  (if isFirst then ascii "--" else ascii "\r\n--") ++ boundary ++ ascii "\r\n"
    ++ ascii "Content-Type: application/asn1-der\r\n" ++ ascii "\r\n" ++ der

/-- The parts for a list of DER blobs, in order. -/
def partsFrom (boundary : List Byte) : Bool → List (List Byte) → List Byte
  | _, [] => []
  | isFirst, der :: rest => partBytes boundary isFirst der ++ partsFrom boundary false rest

def parts (boundary : List Byte) (ders : List (List Byte)) : List Byte :=
  partsFrom boundary true ders

/-- The closing boundary marker. -/
def closing (boundary : List Byte) : List Byte :=
  ascii "\r\n--" ++ boundary ++ ascii "--\r\n"

/-- The DER encodings of the records that precede the first outcome that
carries an upstream error or whose encoding fails. -/
def goodDers : List (TarItemAsn1 × Option Error) → List (List Byte)
  | [] => []
  | (_, some _) :: _ => []
  | (item, none) :: rest =>
    match item.ToDerBytes with
    | .error _ => []
    | .ok der => der :: goodDers rest

/-- The first error among the outcomes: an upstream error or an encoding
error, whichever outcome comes first; none when every outcome succeeds. -/
def firstError : List (TarItemAsn1 × Option Error) → Option Error
  | [] => none
  | (_, some e) :: _ => some e
  | (item, none) :: rest =>
    match item.ToDerBytes with
    | .error e => some e
    | .ok _ => firstError rest

end Spec

/-- An output on which every write succeeds. -/
def multipart.Sink.healthy (s : multipart.Sink) : Prop := ∀ f ∈ s.faults, f = none

instance (s : multipart.Sink) : Decidable s.healthy := by
  unfold multipart.Sink.healthy
  infer_instance

/-- The state of the live part between two parts on a healthy output: no
part yet, or a part that is open and has met no write error. -/
def okPart (lp : Option multipart.part) : Prop :=
  lp = none ∨ lp = some { closed := false, we := none }

/-! ## The outcomes of an archive, in closed form -/

/-- What `io.Copy` reports for one body under a limit: the error lying
behind the body when the limit reaches past the body's last byte, unless
that error is `io.EOF`; nil otherwise. -/
def copyErr (limit : Int) (curr : List Byte) (fault : Option Error) : Option Error :=
  if curr.length < limit.toNat then fault.bind (fun e => if e = Error.EOF then none else some e)
  else none

/-- The record built for a member under a limit: the mapped header and the
first `limit` bytes of the body (none for a limit that is not positive). -/
def recordOf (limit : Int) (m : tar.Member) : TarItemAsn1 :=
  { FileHeader := TarHeader.ToHeader { Header := m.hdr }, Content := m.body.take limit.toNat }

/-- The outcomes of an archive when the consumer never stops, given the
error pending on the current body (`none`: Next can go on), the members to
come and the trailer. -/
def archiveOutcomes (limit : Int) (trailer : Error) :
    Option Error → List tar.Member → List (TarItemAsn1 × Option Error)
  | some e, _ => if Error.EOF = e then [] else [(TarItemAsn1.empty, some e)]
  | none, [] => if Error.EOF = trailer then [] else [(TarItemAsn1.empty, some trailer)]
  | none, m :: ms =>
    match copyErr limit m.body m.fault with
    | some e => [(TarItemAsn1.empty, some e)]
    | none => (recordOf limit m, none) :: archiveOutcomes limit trailer m.fault ms

/-! ## Reading DER (X.690), for stating what is on the wire -/

namespace der

/-- The number written by bytes in big-endian order. -/
def beNat (bs : List Byte) : Nat := bs.foldl (fun acc b => acc * 256 + b) 0

/-- Read one element with a low tag number: the identifier octet, the
contents, and the bytes that follow. The length is in short form (one octet
below 128) or in long form (`0x80 + k`, then `k` octets, big-endian). -/
def readTLV (bs : List Byte) : Option (Nat × List Byte × List Byte) :=
  match bs with
  | ident :: l :: rest =>
    if l < 128 then
      if l ≤ rest.length then some (ident, rest.take l, rest.drop l) else none
    else if l - 128 ≤ rest.length then
      if beNat (rest.take (l - 128)) ≤ (rest.drop (l - 128)).length then
        some (ident, (rest.drop (l - 128)).take (beNat (rest.take (l - 128))),
          (rest.drop (l - 128)).drop (beNat (rest.take (l - 128))))
      else none
    else none
  | _ => none

/-- Read elements one after the other until the bytes are used up. -/
def elements.loop : Nat → List Byte → Option (List (Nat × List Byte))
  | 0, bs => if bs.isEmpty then some [] else none
  | fuel + 1, bs =>
    if bs.isEmpty then some []
    else
      match readTLV bs with
      | none => none
      | some (ident, contents, rest) =>
        match elements.loop fuel rest with
        | none => none
        | some es => some ((ident, contents) :: es)

/-- The elements of the contents of a constructed element, each as its
identifier octet and contents. -/
def elements (bs : List Byte) : Option (List (Nat × List Byte)) := elements.loop bs.length bs

/-- Identifier octets: universal class, primitive (SEQUENCE: constructed). -/
def INTEGER : Nat := 0x02
def OCTET_STRING : Nat := 0x04
def ENUMERATED : Nat := 0x0A
def UTF8String : Nat := 0x0C
def UTCTime : Nat := 0x17
def GeneralizedTime : Nat := 0x18
def SEQUENCE : Nat := 0x30

/-- Take a `Record ::= SEQUENCE { header FileHeader, content OCTET STRING }`
apart: the elements of the header SEQUENCE and the content octets. -/
def parseRecord (bs : List Byte) : Option (List (Nat × List Byte) × List Byte) :=
  match readTLV bs with
  | some (ident, body, []) =>
    if ident = SEQUENCE then
      match readTLV body with
      | some (hident, hbody, rest) =>
        if hident = SEQUENCE then
          match readTLV rest with
          | some (cident, content, []) =>
            if cident = OCTET_STRING then
              match elements hbody with
              | some es => some (es, content)
              | none => none
            else none
          | _ => none
        else none
      | none => none
    else none
  | _ => none

/-- Take a `FileHeader ::= SEQUENCE { ... }` apart: its elements. -/
def parseHeader (bs : List Byte) : Option (List (Nat × List Byte)) :=
  match readTLV bs with
  | some (ident, body, []) => if ident = SEQUENCE then elements body else none
  | _ => none

/-- The integer written by the contents of an INTEGER or ENUMERATED: two's
complement, big-endian. -/
def decodeInt (bs : List Byte) : Int :=
  match bs with
  | [] => 0
  | b :: _ => if b ≥ 128 then (beNat bs : Int) - 256 ^ bs.length else beNat bs

/-- Contents of an INTEGER or ENUMERATED as DER wants them: at least one
octet, and no octet more than needed (the first nine bits are not all zero
and not all one). -/
def minimalInt (bs : List Byte) : Bool :=
  match bs with
  | [] => false
  | [_] => true
  | b0 :: b1 :: _ => !((b0 == 0 && decide (b1 < 128)) || (b0 == 255 && decide (128 ≤ b1)))

/-- A decimal digit `0` to `9`. -/
def isDigit (b : Byte) : Bool := decide (48 ≤ b) && decide (b ≤ 57)

/-- The number written by two decimal digits. -/
def twoDigits (a b : Byte) : Nat := (a - 48) * 10 + (b - 48)

/-- What the contents of a UTCTime or GeneralizedTime say: a date and a time
of day to the second, and the offset of the zone in minutes. -/
structure CivilTime where
  year : Int
  month : Nat
  day : Nat
  hour : Nat
  minute : Nat
  second : Nat
  offsetMinutes : Int
deriving DecidableEq, Repr

/-- Month 1 to 12, day 1 to 31, hour below 24, minute and second below 60. -/
def CivilTime.inRange (c : CivilTime) : Bool :=
  decide (1 ≤ c.month) && decide (c.month ≤ 12) && decide (1 ≤ c.day) && decide (c.day ≤ 31)
    && decide (c.hour < 24) && decide (c.minute < 60) && decide (c.second < 60)

/-- The zone designator: `Z`, or a sign, two digits of hours and two digits
of minutes (below 60). -/
def decodeZone (bs : List Byte) : Option Int :=
  match bs with
  | [90] => some 0
  | [43, h1, h2, m1, m2] =>
    if [h1, h2, m1, m2].all isDigit && decide (twoDigits m1 m2 < 60) then
      some ((twoDigits h1 h2 * 60 + twoDigits m1 m2 : Nat) : Int)
    else none
  | [45, h1, h2, m1, m2] =>
    if [h1, h2, m1, m2].all isDigit && decide (twoDigits m1 m2 < 60) then
      some (-((twoDigits h1 h2 * 60 + twoDigits m1 m2 : Nat) : Int))
    else none
  | _ => none

/-- Contents of a UTCTime `YYMMDDhhmmss` and zone; years 50 to 99 are 1950 to
1999, years 00 to 49 are 2000 to 2049. -/
def decodeUTCTime (bs : List Byte) : Option CivilTime :=
  match bs with
  | y1 :: y2 :: M1 :: M2 :: D1 :: D2 :: h1 :: h2 :: m1 :: m2 :: s1 :: s2 :: zone =>
    if [y1, y2, M1, M2, D1, D2, h1, h2, m1, m2, s1, s2].all isDigit then
      match decodeZone zone with
      | none => none
      | some off =>
        let c : CivilTime :=
          { year := if twoDigits y1 y2 ≥ 50 then 1900 + twoDigits y1 y2 else 2000 + twoDigits y1 y2
            month := twoDigits M1 M2, day := twoDigits D1 D2, hour := twoDigits h1 h2
            minute := twoDigits m1 m2, second := twoDigits s1 s2, offsetMinutes := off }
        if c.inRange then some c else none
    else none
  | _ => none

/-- Contents of a GeneralizedTime `YYYYMMDDhhmmss` and zone. -/
def decodeGeneralizedTime (bs : List Byte) : Option CivilTime :=
  match bs with
  | y1 :: y2 :: y3 :: y4 :: M1 :: M2 :: D1 :: D2 :: h1 :: h2 :: m1 :: m2 :: s1 :: s2 :: zone =>
    if [y1, y2, y3, y4, M1, M2, D1, D2, h1, h2, m1, m2, s1, s2].all isDigit then
      match decodeZone zone with
      | none => none
      | some off =>
        let c : CivilTime :=
          { year := (twoDigits y1 y2 * 100 + twoDigits y3 y4 : Nat)
            month := twoDigits M1 M2, day := twoDigits D1 D2, hour := twoDigits h1 h2
            minute := twoDigits m1 m2, second := twoDigits s1 s2, offsetMinutes := off }
        if c.inRange then some c else none
    else none
  | _ => none

/-- A time element by its identifier octet. -/
def decodeTime (ident : Nat) (bs : List Byte) : Option CivilTime :=
  if ident = UTCTime then decodeUTCTime bs
  else if ident = GeneralizedTime then decodeGeneralizedTime bs
  else none

/-- The field values a DER record carries. -/
structure Decoded where
  fileType : Int
  name : List Byte
  linkTarget : List Byte
  size : Int
  mode : Int
  ownerId : Int
  groupId : Int
  ownerName : List Byte
  groupName : List Byte
  modifiedTime : CivilTime
  format : Int
  content : List Byte
deriving DecidableEq, Repr

/-- A schema for the header SEQUENCE: for each element, in order, the
identifier octets the element may carry. -/
abbrev Schema := List (List Nat)

/-- The binary schema as the specification declares it: `fileType
ENUMERATED, name UTF8String, linkTarget UTF8String, size INTEGER, mode
INTEGER, ownerId INTEGER, groupId INTEGER, ownerName UTF8String, groupName
UTF8String, modifiedTime GeneralizedTime, format ENUMERATED`. -/
def declaredSchema : Schema :=
  [[ENUMERATED], [UTF8String], [UTF8String], [INTEGER], [INTEGER], [INTEGER], [INTEGER],
   [UTF8String], [UTF8String], [GeneralizedTime], [ENUMERATED]]

/-- The same schema with fileType and format as INTEGER and modifiedTime as
UTCTime or GeneralizedTime. -/
def writtenSchema : Schema :=
  [[INTEGER], [UTF8String], [UTF8String], [INTEGER], [INTEGER], [INTEGER], [INTEGER],
   [UTF8String], [UTF8String], [UTCTime, GeneralizedTime], [INTEGER]]

/-- Whether the elements are as many as the schema has entries and carry,
one by one, an identifier octet the schema admits. -/
def conforms : Schema → List (Nat × List Byte) → Bool
  | [], [] => true
  | ids :: s, e :: es => ids.contains e.1 && conforms s es
  | _, _ => false

/-- Decode a record by a schema: the outer SEQUENCE holds the header
SEQUENCE and the content OCTET STRING and nothing more; the header holds
eleven elements whose identifier octets the schema admits; integer contents
are minimal two's complement, string contents are valid UTF-8, and the time
contents are digits in range with a zone designator. Anything else is
rejected. -/
def decodeRecord (s : Schema) (bs : List Byte) : Option Decoded :=
  match parseRecord bs with
  | some ([(i0, ft), (i1, name), (i2, link), (i3, size), (i4, mode), (i5, uid), (i6, gid),
           (i7, uname), (i8, gname), (tident, mtime), (i10, fmt)], content) =>
    if conforms s [(i0, ft), (i1, name), (i2, link), (i3, size), (i4, mode), (i5, uid), (i6, gid),
        (i7, uname), (i8, gname), (tident, mtime), (i10, fmt)]
        && [ft, size, mode, uid, gid, fmt].all minimalInt
        && [name, link, uname, gname].all utf8.ValidString then
      match decodeTime tident mtime with
      | none => none
      | some ct =>
        some { fileType := decodeInt ft, name := name, linkTarget := link, size := decodeInt size
               mode := decodeInt mode, ownerId := decodeInt uid, groupId := decodeInt gid
               ownerName := uname, groupName := gname, modifiedTime := ct
               format := decodeInt fmt, content := content }
    else none
  | _ => none

end der

/-- What encoding/asn1 writes of a `time.Time`: the date and the clock in the
zone of the value, and the zone offset in whole minutes (Go integer division
truncates). -/
def Time.civilTime (t : Time) : der.CivilTime :=
  { year := t.Year, month := t.Date.2.1, day := t.Date.2.2
    hour := t.Clock.1, minute := t.Clock.2.1, second := t.Clock.2.2
    offsetMinutes := Int.tdiv t.Zone 60 }

/-- The field values of a record as a decoder can recover them: every field
as it is, the modification time as its `civilTime`. -/
def TarItemAsn1.decoded (i : TarItemAsn1) : der.Decoded :=
  { fileType := i.FileHeader.FileType, name := i.FileHeader.Name
    linkTarget := i.FileHeader.Linkname, size := i.FileHeader.Size, mode := i.FileHeader.Mode
    ownerId := i.FileHeader.Uid, groupId := i.FileHeader.Gid
    ownerName := i.FileHeader.Uname, groupName := i.FileHeader.Gname
    modifiedTime := i.FileHeader.Modified.civilTime
    format := i.FileHeader.Format, content := i.Content }

/-! ## The contents of the time element, written out -/

namespace Spec

/-- The two decimal digits of a number (its last two, should it be 100 or
more), as ASCII. -/
def digitPair (v : Nat) : List Byte := [48 + v / 10 % 10, 48 + v % 10]

/-- The zone designator for an offset in seconds east of UTC: `Z` when the
offset is less than a minute, else the sign and the offset as `hhmm`. -/
def zoneText (offset : Int) : List Byte :=
  if Int.tdiv offset 60 = 0 then [90]
  else
    (if 0 < offset then 43 else 45)
      :: (digitPair ((Int.tdiv offset 60).natAbs / 60) ++ digitPair ((Int.tdiv offset 60).natAbs % 60))

/-- The contents of the time element for a `time.Time`: the year in the zone
of the value (two digits when it lies in 1950 to 2049, four digits
otherwise), then month, day, hour, minute and second in that zone, then the
zone designator. -/
def timeText (t : Time) : List Byte :=
  (if 1950 ≤ t.Year ∧ t.Year < 2050 then digitPair (t.Year.toNat % 100)
    else digitPair (t.Year.toNat / 100) ++ digitPair (t.Year.toNat % 100))
    ++ digitPair t.Date.2.1 ++ digitPair t.Date.2.2
    ++ digitPair t.Clock.1 ++ digitPair t.Clock.2.1 ++ digitPair t.Clock.2.2
    ++ zoneText t.offset

end Spec

/-! ## The elements a record is written with -/

/-- The universal tag a `time.Time` is written with: UTCTime, or
GeneralizedTime when `outsideUTCRange` says so. -/
def asn1.timeTag (t : Time) : Nat :=
  if asn1.outsideUTCRange t then asn1.TagGeneralizedTime else asn1.TagUTCTime

/-- The contents of the time element. -/
def asn1.timeBody (t : Time) : Except Error (List Byte) :=
  if asn1.outsideUTCRange t then asn1.makeGeneralizedTime t else asn1.makeUTCTime t

/-- The eleven elements of the header SEQUENCE as `Marshal` writes them, each
as its universal tag and its contents; `tb` is the contents of the time
element. -/
def FileHeader.elements (h : FileHeader) (tb : List Byte) : List (Nat × List Byte) :=
  [ (asn1.TagInteger, asn1.int64Encoder.Encode h.FileType),
    (asn1.TagUTF8String, h.Name),
    (asn1.TagUTF8String, h.Linkname),
    (asn1.TagInteger, asn1.int64Encoder.Encode h.Size),
    (asn1.TagInteger, asn1.int64Encoder.Encode h.Mode),
    (asn1.TagInteger, asn1.int64Encoder.Encode h.Uid),
    (asn1.TagInteger, asn1.int64Encoder.Encode h.Gid),
    (asn1.TagUTF8String, h.Uname),
    (asn1.TagUTF8String, h.Gname),
    (asn1.timeTag h.Modified, tb),
    (asn1.TagInteger, asn1.int64Encoder.Encode h.Format) ]

/-- Primitive elements written one after the other. -/
def asn1.encodeElements (es : List (Nat × List Byte)) : List Byte :=
  es.flatMap (fun e => asn1.taggedEncoder e.1 false e.2)

/-! ## Sample values -/

namespace Sample

/-- 2023-11-14 22:13:20 UTC. -/
def mtime : Time := { sec := 1700000000, nsec := 0, offset := 0 }

/-- Native header of a regular file `a.txt` of two bytes. -/
def hdr : tar.Header :=
  { Typeflag := tar.TypeReg, Name := ascii "a.txt", Linkname := [], Size := 2, Mode := 420,
    Uid := 1000, Gid := 1000, Uname := ascii "u", Gname := ascii "g", ModTime := mtime,
    Format := tar.FormatPAX }

/-- The record for `a.txt` with content `hi`. -/
def item : TarItemAsn1 := { FileHeader := TarHeader.ToHeader { Header := hdr }, Content := [0x68, 0x69] }

/-- The DER encoding of `item`. -/
def der : List Byte :=
  [0x30, 0x39, 0x30, 0x33, 0x02, 0x01, 0x10, 0x0c, 0x05, 0x61, 0x2e, 0x74, 0x78, 0x74, 0x0c, 0x00,
   0x02, 0x01, 0x02, 0x02, 0x02, 0x01, 0xa4, 0x02, 0x02, 0x03, 0xe8, 0x02, 0x02, 0x03, 0xe8,
   0x0c, 0x01, 0x75, 0x0c, 0x01, 0x67,
   0x17, 0x0d, 0x32, 0x33, 0x31, 0x31, 0x31, 0x34, 0x32, 0x32, 0x31, 0x33, 0x32, 0x30, 0x5a,
   0x02, 0x01, 0x20, 0x04, 0x02, 0x68, 0x69]

/-- A context that is never cancelled. -/
def live : Context := { poll := fun _ => none }

/-- A context that is found cancelled from the second look on. -/
def cancelledAfterOne : Context := { poll := fun n => if n = 0 then none else some Error.Canceled }

/-- An empty output that takes every write. -/
def sink : multipart.Sink := { out := [], faults := [] }

def boundary : List Byte := ascii "BB"

/-- A member of 2,000,000 bytes. -/
def big : tar.Member :=
  { hdr := { hdr with Name := ascii "big", Size := 2000000 },
    body := List.replicate 2000000 0, fault := none }

/-- A reader at the start of an archive that holds `a.txt` and ends well. -/
def reader : TarReader :=
  { Reader := { rest := [{ hdr := hdr, body := [0x68, 0x69], fault := none }], trailer := Error.EOF,
                curr := [], fault := none, sched := [1] } }

/-- A reader at the start of an archive that holds the member `big`. -/
def bigReader : TarReader :=
  { Reader := { rest := [big], trailer := Error.EOF, curr := [], fault := none, sched := [] } }

/-- A capacity policy for the buffer: never more room than `MinRead`. -/
def room : Nat → Nat := fun _ => 0

/-- An output whose second write fails after two bytes. -/
def failingSink : multipart.Sink :=
  { out := [], faults := [none, some (2, Error.ErrUnexpectedEOF)] }

/-- The multipart writer after the part header went to `failingSink` and the
write of the body of `item` failed. -/
def afterFailedWrite : MultipartWriter :=
  { Writer :=
      { w := { out := ascii "--BB\r\nContent-Type: application/asn1-der\r\n\r\n" ++ [0x30, 0x39],
               faults := [] },
        boundary := boundary,
        lastpart := some { closed := false, we := some Error.ErrUnexpectedEOF } } }

/-- The record for `a.txt` with the modification time one nanosecond short
of a second later: 2023-11-14 22:13:20.999999999 UTC. -/
def itemLater : TarItemAsn1 :=
  { item with FileHeader := { item.FileHeader with Modified := { mtime with nsec := 999999999 } } }

/-- The record for `a.txt` with a name that is not valid UTF-8 (the single
byte 0xFF). -/
def itemBadName : TarItemAsn1 :=
  { item with FileHeader := { item.FileHeader with Name := [0xff] } }

/-- The instant 2050-01-01 00:30:00 UTC shown in a zone one hour west of
UTC: 2049-12-31 23:30:00 -01:00. -/
def newYearWest : Time := { sec := 2524609800, nsec := 0, offset := -3600 }

/-- The instant 2049-12-31 23:30:00 UTC shown in a zone one hour east of
UTC: 2050-01-01 00:30:00 +01:00. -/
def newYearEast : Time := { sec := 2524606200, nsec := 0, offset := 3600 }

/-- A reader at the start of an archive of three members: `a.txt`, then a
member whose body breaks off after one byte, then `a.txt` once more. -/
def brokenReader : TarReader :=
  { Reader :=
      { rest := [{ hdr := hdr, body := [0x68, 0x69], fault := none },
                 { hdr := hdr, body := [0x68], fault := some Error.ErrUnexpectedEOF },
                 { hdr := hdr, body := [0x68, 0x69], fault := none }],
        trailer := Error.EOF, curr := [], fault := none, sched := [] } }

/-- The DER encoding of the header of `item`. -/
def headerDer : List Byte :=
  [0x30, 0x33, 0x02, 0x01, 0x10, 0x0c, 0x05, 0x61, 0x2e, 0x74, 0x78, 0x74, 0x0c, 0x00,
   0x02, 0x01, 0x02, 0x02, 0x02, 0x01, 0xa4, 0x02, 0x02, 0x03, 0xe8, 0x02, 0x02, 0x03, 0xe8,
   0x0c, 0x01, 0x75, 0x0c, 0x01, 0x67,
   0x17, 0x0d, 0x32, 0x33, 0x31, 0x31, 0x31, 0x34, 0x32, 0x32, 0x31, 0x33, 0x32, 0x30, 0x5a,
   0x02, 0x01, 0x20]

end Sample

/-! # Theorems -/

/-! ## Header mapping -/

/-- Claim C9: `TarHeader.ToHeader` is a total function that agrees with the
reference mapping of the specification on every native header: the file type
and the format are mapped by the two tables (anything unknown to Unspecified,
so both are always one of the four defined values), and every other field,
a negative size included, is the native header's field unchanged. -/
theorem C9_ToHeader_eq_reference (t : TarHeader) :
    t.ToHeader = Spec.headerOf t.Header
    ∧ (t.ToHeader.FileType = FileTypeUnspecified ∨ t.ToHeader.FileType = FileTypeRegular
        ∨ t.ToHeader.FileType = FileTypeSymlink ∨ t.ToHeader.FileType = FileTypeDir)
    ∧ (t.ToHeader.Format = FormatUnspecified ∨ t.ToHeader.Format = FormatUSTAR
        ∨ t.ToHeader.Format = FormatPAX ∨ t.ToHeader.Format = FormatGNU)
    ∧ t.ToHeader.Name = t.Header.Name ∧ t.ToHeader.Linkname = t.Header.Linkname
    ∧ t.ToHeader.Size = t.Header.Size ∧ t.ToHeader.Mode = t.Header.Mode
    ∧ t.ToHeader.Uid = t.Header.Uid ∧ t.ToHeader.Gid = t.Header.Gid
    ∧ t.ToHeader.Uname = t.Header.Uname ∧ t.ToHeader.Gname = t.Header.Gname
    ∧ t.ToHeader.Modified = t.Header.ModTime := by
  refine ⟨rfl, ?_, ?_, rfl, rfl, rfl, rfl, rfl, rfl, rfl, rfl, rfl⟩
  · simp only [TarHeader.ToHeader, TarHeader.ToFileType]
    split_ifs <;> simp
  · simp only [TarHeader.ToHeader, TarHeader.TarFormat]
    split_ifs <;> simp


/-! ## Unfolding the reference definitions -/

seal TarItemAsn1.ToDerBytes in
theorem goodDers_nil : Spec.goodDers [] = [] := by
  rw [Spec.goodDers]

seal TarItemAsn1.ToDerBytes in
theorem firstError_nil : Spec.firstError [] = none := by
  rw [Spec.firstError]


/-! ## The multipart writer on a healthy output -/

theorem Sink_Write_healthy (s : multipart.Sink) (p : List Byte) (h : s.healthy) :
    s.Write p = ((p.length, none), { out := s.out ++ p, faults := s.faults.tail }) ∧
      (s.Write p).2.healthy := by
  unfold multipart.Sink.healthy at *
  unfold multipart.Sink.Write
  rcases hf : s.faults with _ | ⟨f, fs⟩
  · simp
  · have hf0 : f = none := h f (by simp [hf])
    subst hf0
    refine ⟨rfl, ?_⟩
    intro g hg
    exact h g (by simp [hf]; exact Or.inr hg)

theorem healthy_tail (s t : multipart.Sink) (h : s.healthy) (ht : t.faults = s.faults.tail) :
    t.healthy := by
  intro g hg
  rw [ht] at hg
  exact h g (List.mem_of_mem_tail hg)

theorem CreatePart_healthy (w : multipart.Writer) (hdr : List (List Byte × List Byte))
    (h : w.w.healthy) (hp : okPart w.lastpart) :
    w.CreatePart hdr = (none,
      { w := { out := w.w.out ++ (hdr.foldl (fun b kv => b ++ kv.1 ++ ascii ": " ++ kv.2 ++ ascii "\r\n")
                ((if w.lastpart.isSome then ascii "\r\n--" else ascii "--") ++ w.boundary ++ ascii "\r\n")
                ++ ascii "\r\n"),
               faults := w.w.faults.tail },
        boundary := w.boundary,
        lastpart := some { closed := false, we := none } }) := by
  obtain ⟨sink, boundary, lp⟩ := w
  simp only at h hp
  rcases hp with hp | hp <;> subst hp
  · simp only [multipart.Writer.CreatePart, Option.isSome]
    rw [(Sink_Write_healthy sink _ h).1]
    simp
  · simp only [multipart.Writer.CreatePart, Option.isSome, multipart.part.close]
    rw [(Sink_Write_healthy sink _ h).1]
    simp

theorem partWrite_healthy (w : multipart.Writer) (d : List Byte)
    (h : w.w.healthy) (hp : w.lastpart = some { closed := false, we := none }) :
    w.partWrite d = ((d.length, none), { w with w := { out := w.w.out ++ d, faults := w.w.faults.tail } }) := by
  obtain ⟨sink, boundary, lp⟩ := w
  simp only at h hp
  subst hp
  simp only [multipart.Writer.partWrite]
  rw [(Sink_Write_healthy sink _ h).1]
  simp

theorem WriteAsn1Bytes_healthy (w : MultipartWriter) (der : List Byte)
    (h : w.Writer.w.healthy) (hp : okPart w.Writer.lastpart) :
    (w.WriteAsn1Bytes der).1 = none
    ∧ (w.WriteAsn1Bytes der).2.Writer.w.out
        = w.Writer.w.out ++ Spec.partBytes w.Writer.boundary (w.Writer.lastpart.isNone) der
    ∧ (w.WriteAsn1Bytes der).2.Writer.w.healthy
    ∧ (w.WriteAsn1Bytes der).2.Writer.boundary = w.Writer.boundary
    ∧ (w.WriteAsn1Bytes der).2.Writer.lastpart = some { closed := false, we := none } := by
  obtain ⟨w⟩ := w
  simp only at h hp
  simp only [MultipartWriter.WriteAsn1Bytes, MultipartWriter.CreateAsn1Header]
  rw [CreatePart_healthy w _ h hp]
  simp only
  rw [partWrite_healthy _ _ (healthy_tail _ _ h rfl) rfl]
  refine ⟨rfl, ?_, ?_, rfl, rfl⟩
  · simp only [List.foldl, Spec.partBytes, ContentTypeKey, ContentTypeVal]
    rcases hp with hp | hp <;> rw [hp] <;> simp [ascii]
  · simp only [List.tail]
    exact healthy_tail _ _ (healthy_tail w.w ⟨[], w.w.faults.tail⟩ h rfl) rfl

theorem WriteItems_loop_healthy (ctx : Context) (hctx : ∀ n, ctx.poll n = none)
    (os : List (TarItemAsn1 × Option Error)) :
    ∀ s : WriteItems.State, s.w.Writer.w.healthy → okPart s.w.Writer.lastpart → s.ret = none →
    ∃ s', seqOf os (MultipartWriter.WriteItems.body ctx) s = some s'
      ∧ s'.ret = Spec.firstError os
      ∧ s'.w.Writer.w.out = s.w.Writer.w.out
          ++ Spec.partsFrom s.w.Writer.boundary s.w.Writer.lastpart.isNone (Spec.goodDers os)
      ∧ s'.w.Writer.w.healthy ∧ okPart s'.w.Writer.lastpart
      ∧ s'.w.Writer.boundary = s.w.Writer.boundary := by
  induction os with
  | nil =>
    intro s h hp hr
    exact ⟨s, rfl, by simp [Spec.firstError, hr], by simp [Spec.goodDers, Spec.partsFrom], h, hp, rfl⟩
  | cons o rest ih =>
    intro s h hp hr
    obtain ⟨item, e⟩ := o
    cases e with
    | some e =>
      refine ⟨{ s with polls := s.polls + 1, ret := some e }, ?_, ?_, ?_, h, hp, rfl⟩
      · simp [seqOf, MultipartWriter.WriteItems.body, hctx]
      · simp [Spec.firstError]
      · simp [Spec.goodDers, Spec.partsFrom]
    | none =>
      cases hd : item.ToDerBytes with
      | error e =>
        refine ⟨{ s with polls := s.polls + 1, ret := some e }, ?_, ?_, ?_, h, hp, rfl⟩
        · simp [seqOf, MultipartWriter.WriteItems.body, hctx, hd]
        · simp [Spec.firstError, hd]
        · simp [Spec.goodDers, Spec.partsFrom, hd]
      | ok der =>
        obtain ⟨h1, h2, h3, h4, h5⟩ := WriteAsn1Bytes_healthy s.w der h hp
        obtain ⟨s', hs1, hs2, hs3, hs4, hs5, hs6⟩ :=
          ih { s with polls := s.polls + 1, w := (s.w.WriteAsn1Bytes der).2 } h3 (Or.inr h5) hr
        refine ⟨s', ?_, ?_, ?_, hs4, hs5, ?_⟩
        · rw [← hs1]
          simp only [seqOf, MultipartWriter.WriteItems.body, hctx, hd]
          rcases hw : s.w.WriteAsn1Bytes der with ⟨we, w'⟩
          rw [hw] at h1
          simp only at h1
          subst h1
          rfl
        · simp [Spec.firstError, hd, hs2]
        · rw [hs3]
          simp only [Spec.goodDers, hd, Spec.partsFrom, h2, h4, h5, Option.isNone, List.append_assoc]
        · rw [hs6, h4]

theorem WriteItems_loop_cancel (ctx : Context) (o : TarItemAsn1 × Option Error)
    (rest : List (TarItemAsn1 × Option Error)) (ce : Error) (items : List TarItemAsn1) :
    ∀ (ders : List (List Byte)) (s : WriteItems.State),
    s.w.Writer.w.healthy → okPart s.w.Writer.lastpart →
    items.map TarItemAsn1.ToDerBytes = ders.map Except.ok →
    (∀ n, n < items.length → ctx.poll (s.polls + n) = none) →
    ctx.poll (s.polls + items.length) = some ce →
    ∃ s', seqOf (items.map (fun it => (it, none)) ++ o :: rest)
            (MultipartWriter.WriteItems.body ctx) s = some s'
      ∧ s'.ret = some ce
      ∧ s'.w.Writer.w.out = s.w.Writer.w.out
          ++ Spec.partsFrom s.w.Writer.boundary s.w.Writer.lastpart.isNone ders
      ∧ s'.w.Writer.w.healthy ∧ okPart s'.w.Writer.lastpart
      ∧ s'.w.Writer.boundary = s.w.Writer.boundary := by
  induction items with
  | nil =>
    intro ders s h hp henc hlive hdone
    cases ders with
    | cons d ds => simp at henc
    | nil =>
      simp only [List.length_nil, Nat.add_zero] at hdone
      refine ⟨{ s with polls := s.polls + 1, ret := some ce }, ?_, rfl, ?_, h, hp, rfl⟩
      · simp [seqOf, MultipartWriter.WriteItems.body, hdone]
      · simp [Spec.partsFrom]
  | cons it its ih =>
    intro ders s h hp henc hlive hdone
    cases ders with
    | nil => simp at henc
    | cons der ds =>
      simp only [List.map_cons, List.cons.injEq] at henc
      obtain ⟨hd, henc⟩ := henc
      obtain ⟨h1, h2, h3, h4, h5⟩ := WriteAsn1Bytes_healthy s.w der h hp
      have hp0 : ctx.poll s.polls = none := by simpa using hlive 0 (by simp)
      obtain ⟨s', hs1, hs2, hs3, hs4, hs5, hs6⟩ :=
        ih ds { s with polls := s.polls + 1, w := (s.w.WriteAsn1Bytes der).2 } h3 (Or.inr h5) henc
          (by
            intro n hn
            have := hlive (n + 1) (by simp; omega)
            simpa [Nat.add_assoc, Nat.add_comm 1 n] using this)
          (by
            simpa [Nat.add_assoc, Nat.add_comm 1 its.length] using hdone)
      refine ⟨s', ?_, hs2, ?_, hs4, hs5, ?_⟩
      · rw [← hs1]
        simp only [List.map_cons, List.cons_append, seqOf, MultipartWriter.WriteItems.body, hp0, hd]
        rcases hw : s.w.WriteAsn1Bytes der with ⟨we, w'⟩
        rw [hw] at h1
        simp only at h1
        subst h1
        rfl
      · rw [hs3]
        simp only [Spec.partsFrom, h2, h4, h5, Option.isNone, List.append_assoc]
      · rw [hs6, h4]

theorem Close_healthy (w : multipart.Writer) (h : w.w.healthy) (hp : okPart w.lastpart) :
    w.Close = (none, { w := { out := w.w.out ++ Spec.closing w.boundary, faults := w.w.faults.tail },
                       boundary := w.boundary, lastpart := none }) := by
  obtain ⟨sink, boundary, lp⟩ := w
  simp only at h hp
  rcases hp with hp | hp <;> subst hp
  · simp only [multipart.Writer.Close]
    rw [(Sink_Write_healthy sink _ h).1]
    simp [Spec.closing]
  · simp only [multipart.Writer.Close, multipart.part.close]
    rw [(Sink_Write_healthy sink _ h).1]
    simp [Spec.closing]

theorem seqOf_total (ctx : Context) (os : List (TarItemAsn1 × Option Error)) :
    ∀ s : WriteItems.State, ∃ s', seqOf os (MultipartWriter.WriteItems.body ctx) s = some s' := by
  induction os with
  | nil => intro s; exact ⟨s, rfl⟩
  | cons o rest ih =>
    intro s
    obtain ⟨item, e⟩ := o
    simp only [seqOf]
    rcases hb : MultipartWriter.WriteItems.body ctx item e s with ⟨c, s1⟩
    cases c with
    | false => exact ⟨s1, rfl⟩
    | true => exact ih s1

theorem Join_pair (e ce : Option Error) :
    errors.Join [e, ce] =
      if e = none ∧ ce = none then none else some { errs := e.toList ++ ce.toList } := by
  cases e <;> cases ce <;> simp [errors.Join]


/-! ## Writing the parts -/

/-- Claim C2: with a context that is never cancelled and an output that takes
every write, `WriteItems` goes through the outcomes in order and writes one
part for each record before the first outcome that carries an upstream error
or fails to encode; the body of each part is exactly the record's DER bytes;
nothing is written for the failing outcome or any later one; the result is
that first error unchanged, or nil when every outcome succeeds. -/
theorem C2_WriteItems_parts_until_first_error (ctx : Context) (sink : multipart.Sink)
    (boundary : List Byte) (os : List (TarItemAsn1 × Option Error))
    (hctx : ∀ n, ctx.poll n = none) (hsink : sink.healthy) :
    ∃ mw, MultipartWriter.WriteItems { Writer := multipart.NewWriter sink boundary } ctx (seqOf os)
        = some (Spec.firstError os, mw)
      ∧ mw.Writer.w.out = sink.out ++ Spec.parts boundary (Spec.goodDers os) := by
  obtain ⟨s', h1, h2, h3, -, -, -⟩ := WriteItems_loop_healthy ctx hctx os
    { w := { Writer := multipart.NewWriter sink boundary }, polls := 0, ret := none }
    hsink (Or.inl rfl) rfl
  refine ⟨s'.w, ?_, ?_⟩
  · simp only [MultipartWriter.WriteItems, h1, Option.map_some', h2]
  · rw [h3]; rfl

theorem C2_witness :
    (∀ n, Sample.live.poll n = none) ∧ Sample.sink.healthy ∧
    ∃ mw, MultipartWriter.WriteItems { Writer := multipart.NewWriter Sample.sink Sample.boundary }
          Sample.live (seqOf [(Sample.item, none), (TarItemAsn1.empty, some Error.ErrHeader),
            (Sample.item, none)])
        = some (Spec.firstError [(Sample.item, none), (TarItemAsn1.empty, some Error.ErrHeader),
            (Sample.item, none)], mw)
      ∧ mw.Writer.w.out = Sample.sink.out ++ Spec.parts Sample.boundary
          (Spec.goodDers [(Sample.item, none), (TarItemAsn1.empty, some Error.ErrHeader),
            (Sample.item, none)]) :=
  ⟨fun _ => rfl, by decide,
    C2_WriteItems_parts_until_first_error Sample.live Sample.sink Sample.boundary _
      (fun _ => rfl) (by decide)⟩


/-- Claim C3: `WriteAll` runs `WriteItems` and then closes the multipart
writer once, in the state `WriteItems` left it, whatever `WriteItems`
returned; the result is `errors.Join` of the processing error and the close
error: nil exactly when both are nil, else the error wrapping those of the
two that are not nil, in that order, so that both are carried when both are
set; when the close reports no error the output is what `WriteItems` wrote
followed by the closing boundary. For every list of outcomes, every context
and every output `WriteItems` does return, so each path (success, upstream
error, encoding error, part-write error, cancellation) ends in that close. -/
theorem C3_WriteAll_closes_and_joins (w : tar2mpart.Writer) (boundary : List Byte) (ctx : Context)
    (i : Seq2 WriteItems.State) (e : Option Error) (mw : MultipartWriter)
    (h : MultipartWriter.WriteItems { Writer := multipart.NewWriter w.Writer boundary } ctx i
        = some (e, mw)) :
    w.WriteAll boundary ctx i = some (errors.Join [e, mw.Writer.Close.1], mw.Writer.Close.2)
    ∧ (errors.Join [e, mw.Writer.Close.1] = none ↔ e = none ∧ mw.Writer.Close.1 = none)
    ∧ errors.Join [e, mw.Writer.Close.1]
        = (if e = none ∧ mw.Writer.Close.1 = none then none
           else some { errs := e.toList ++ mw.Writer.Close.1.toList })
    ∧ (∀ e1 e2, e = some e1 → mw.Writer.Close.1 = some e2 →
        errors.Join [e, mw.Writer.Close.1] = some { errs := [e1, e2] })
    ∧ (mw.Writer.Close.1 = none →
        mw.Writer.Close.2.w.out = mw.Writer.w.out ++ Spec.closing mw.Writer.boundary)
    ∧ (∀ os : List (TarItemAsn1 × Option Error), ∃ e1 mw1,
        MultipartWriter.WriteItems { Writer := multipart.NewWriter w.Writer boundary } ctx (seqOf os)
          = some (e1, mw1)) := by
  refine ⟨?_, ?_, Join_pair _ _, ?_, ?_, ?_⟩
  · simp only [Writer.WriteAll, h]
  · rw [Join_pair]
    by_cases hc : e = none ∧ mw.Writer.Close.1 = none
    · simp [hc]
    · simp [hc]
  · intro e1 e2 h1 h2
    rw [Join_pair, h1, h2]
    simp
  · obtain ⟨⟨sink, bd, lp⟩⟩ := mw
    intro hc
    simp only [multipart.Writer.Close] at hc ⊢
    rcases lp with _ | ⟨closed, we⟩
    · simp only at hc ⊢
      unfold multipart.Sink.Write at hc ⊢
      rcases hf : sink.faults with _ | ⟨f, fs⟩
      · simp [Spec.closing]
      · rcases f with _ | ⟨n, err⟩
        · simp [Spec.closing]
        · simp [hf] at hc
    · rcases we with _ | err
      · simp only [multipart.part.close] at hc ⊢
        unfold multipart.Sink.Write at hc ⊢
        rcases hf : sink.faults with _ | ⟨f, fs⟩
        · simp [Spec.closing]
        · rcases f with _ | ⟨n, err⟩
          · simp [Spec.closing]
          · simp [hf] at hc
      · simp [multipart.part.close] at hc
  · intro os
    obtain ⟨s', hs⟩ := seqOf_total ctx os
      { w := { Writer := multipart.NewWriter w.Writer boundary }, polls := 0, ret := none }
    exact ⟨s'.ret, s'.w, by simp [MultipartWriter.WriteItems, hs]⟩

/-- Claim C3 at a part-write failure: the header of the first part is
written, the write of its body fails after two bytes; `WriteItems` returns
that error, the close returns the error kept in the part, and `WriteAll`
reports the two joined. -/
theorem C3_witness :
    MultipartWriter.WriteItems
        { Writer := multipart.NewWriter Sample.failingSink Sample.boundary }
        Sample.live (seqOf [(Sample.item, none)])
      = some (some Error.ErrUnexpectedEOF, Sample.afterFailedWrite)
    ∧ Writer.WriteAll { Writer := Sample.failingSink } Sample.boundary Sample.live
          (seqOf [(Sample.item, none)])
      = some (errors.Join [some Error.ErrUnexpectedEOF, Sample.afterFailedWrite.Writer.Close.1],
          Sample.afterFailedWrite.Writer.Close.2)
    ∧ errors.Join [some Error.ErrUnexpectedEOF, Sample.afterFailedWrite.Writer.Close.1]
      = some { errs := [Error.ErrUnexpectedEOF, Error.ErrUnexpectedEOF] } :=
  have h : MultipartWriter.WriteItems
        { Writer := multipart.NewWriter Sample.failingSink Sample.boundary }
        Sample.live (seqOf [(Sample.item, none)])
      = some (some Error.ErrUnexpectedEOF, Sample.afterFailedWrite) := by decide
  ⟨h, (C3_WriteAll_closes_and_joins { Writer := Sample.failingSink } Sample.boundary Sample.live
      _ _ _ h).1,
    (C3_WriteAll_closes_and_joins { Writer := Sample.failingSink } Sample.boundary Sample.live
      _ _ _ h).2.2.2.1 _ _ rfl (by decide)⟩

/-- Claim C4: whenever the loop of `WriteItems` pulls an outcome (a record or
an upstream error alike) while the context is done, the loop body returns
the error of the context at once and leaves the writer untouched: nothing is
encoded and no part is started, for this outcome or a later one. Hence, on an output that takes every write, if the
context is first found done after N records were written as parts, the
output of `WriteAll` is exactly those N parts followed by the closing
boundary, and the returned error wraps the error of the context. -/
theorem C4_cancellation_keeps_written_parts (ctx : Context) (sink : multipart.Sink)
    (boundary : List Byte) (items : List TarItemAsn1) (ders : List (List Byte))
    (o : TarItemAsn1 × Option Error) (rest : List (TarItemAsn1 × Option Error)) (ce : Error)
    (hsink : sink.healthy)
    (henc : items.map TarItemAsn1.ToDerBytes = ders.map Except.ok)
    (hlive : ∀ n, n < items.length → ctx.poll n = none)
    (hdone : ctx.poll items.length = some ce) :
    (∀ (s : WriteItems.State) (it : TarItemAsn1) (e : Option Error) (err : Error),
      ctx.poll s.polls = some err →
      MultipartWriter.WriteItems.body ctx it e s
        = (false, { w := s.w, polls := s.polls + 1, ret := some err }))
    ∧ (∃ mw, MultipartWriter.WriteItems { Writer := multipart.NewWriter sink boundary } ctx
          (seqOf (items.map (fun it => (it, none)) ++ o :: rest)) = some (some ce, mw)
        ∧ mw.Writer.w.out = sink.out ++ Spec.parts boundary ders)
    ∧ (∃ wtr, Writer.WriteAll { Writer := sink } boundary ctx
          (seqOf (items.map (fun it => (it, none)) ++ o :: rest))
          = some (some { errs := [ce] }, wtr)
        ∧ wtr.w.out = sink.out ++ Spec.parts boundary ders ++ Spec.closing boundary) := by
  obtain ⟨s', h1, h2, h3, h4, h5, h6⟩ := WriteItems_loop_cancel ctx o rest ce items ders
    { w := { Writer := multipart.NewWriter sink boundary }, polls := 0, ret := none }
    hsink (Or.inl rfl) henc (by simpa using hlive) (by simpa using hdone)
  have hW : MultipartWriter.WriteItems { Writer := multipart.NewWriter sink boundary } ctx
      (seqOf (items.map (fun it => (it, none)) ++ o :: rest)) = some (some ce, s'.w) := by
    simp only [MultipartWriter.WriteItems, h1, Option.map_some', h2]
  refine ⟨?_, ⟨s'.w, hW, by rw [h3]; rfl⟩, ?_⟩
  · intro s it e err hs
    simp only [MultipartWriter.WriteItems.body, hs]
  · refine ⟨{ w := { out := s'.w.Writer.w.out ++ Spec.closing s'.w.Writer.boundary,
                      faults := s'.w.Writer.w.faults.tail },
               boundary := s'.w.Writer.boundary, lastpart := none }, ?_, ?_⟩
    · simp only [Writer.WriteAll, hW, Close_healthy _ h4 h5]
      simp [errors.Join]
    · simp only [h3, h6]
      rfl

theorem C4_witness :
    Sample.sink.healthy
    ∧ [Sample.item].map TarItemAsn1.ToDerBytes = [Sample.der].map Except.ok
    ∧ (∀ n, n < [Sample.item].length → Sample.cancelledAfterOne.poll n = none)
    ∧ Sample.cancelledAfterOne.poll [Sample.item].length = some Error.Canceled
    ∧ ((∀ (s : WriteItems.State) (it : TarItemAsn1) (e : Option Error) (err : Error),
        Sample.cancelledAfterOne.poll s.polls = some err →
        MultipartWriter.WriteItems.body Sample.cancelledAfterOne it e s
          = (false, { w := s.w, polls := s.polls + 1, ret := some err }))
      ∧ (∃ mw, MultipartWriter.WriteItems { Writer := multipart.NewWriter Sample.sink Sample.boundary }
            Sample.cancelledAfterOne
            (seqOf ([Sample.item].map (fun it => (it, none)) ++ (Sample.item, none) :: []))
            = some (some Error.Canceled, mw)
          ∧ mw.Writer.w.out = Sample.sink.out ++ Spec.parts Sample.boundary [Sample.der])
      ∧ (∃ wtr, Writer.WriteAll { Writer := Sample.sink } Sample.boundary Sample.cancelledAfterOne
            (seqOf ([Sample.item].map (fun it => (it, none)) ++ (Sample.item, none) :: []))
            = some (some { errs := [Error.Canceled] }, wtr)
          ∧ wtr.w.out = Sample.sink.out ++ Spec.parts Sample.boundary [Sample.der]
              ++ Spec.closing Sample.boundary)) :=
  have hlive : ∀ n, n < [Sample.item].length → Sample.cancelledAfterOne.poll n = none := by
    intro n hn
    have : n = 0 := by simpa using hn
    subst this
    rfl
  ⟨by decide, by decide, hlive, by decide,
    C4_cancellation_keeps_written_parts Sample.cancelledAfterOne Sample.sink Sample.boundary
      [Sample.item] [Sample.der] (Sample.item, none) [] Error.Canceled
      (by decide) (by decide) hlive (by decide)⟩


/-! ## Reading the archive -/

theorem LimitedReader_Read_body (rest : List tar.Member) (trailer : Error) (c : Byte)
    (cs : List Byte) (fault : Option Error) (sched : List Nat) (N : Int) (req : Nat)
    (hN : 0 < N) (hreq : 1 ≤ req) :
    ∃ m, m ≤ (c :: cs).length ∧ m ≤ N.toNat ∧ (sched = [] → 1 ≤ m) ∧
      io.LimitedReader.Read
          { R := { rest := rest, trailer := trailer, curr := c :: cs, fault := fault, sched := sched },
            N := N } req
        = (((c :: cs).take m,
            if ((c :: cs).drop m).isEmpty ∧ fault = none then some Error.EOF else none),
           { R := { rest := rest, trailer := trailer, curr := (c :: cs).drop m, fault := fault,
                    sched := sched.tail },
             N := N - ((c :: cs).take m).length }) := by
  have hk : ∃ k, 1 ≤ k ∧ k ≤ N.toNat ∧ (if (req : Int) > N then N.toNat else req) = k := by
    by_cases h : (req : Int) > N
    · exact ⟨N.toNat, by omega, le_refl _, by simp [h]⟩
    · exact ⟨req, hreq, by omega, by simp [h]⟩
  obtain ⟨k, hk1, hk2, hk3⟩ := hk
  have hNn : ¬ N ≤ 0 := by omega
  cases sched with
  | nil =>
    refine ⟨min k (c :: cs).length, Nat.min_le_right _ _, le_trans (Nat.min_le_left _ _) hk2, ?_, ?_⟩
    · intro _
      simp only [List.length_cons]
      omega
    · simp only [io.LimitedReader.Read, hNn, if_false, hk3, tar.Reader.Read, List.isEmpty_cons,
        Bool.false_eq_true, List.tail_nil]
      split_ifs <;> rfl
  | cons s ss =>
    refine ⟨min k (min s (c :: cs).length), ?_, le_trans (Nat.min_le_left _ _) hk2, by simp, ?_⟩
    · exact le_trans (Nat.min_le_right _ _) (Nat.min_le_right _ _)
    · simp only [io.LimitedReader.Read, hNn, if_false, hk3, tar.Reader.Read, List.isEmpty_cons,
        Bool.false_eq_true, List.tail_cons]
      split_ifs <;> rfl


theorem ReadFrom_loop_spec : ∀ (fuel : Nat) (b : bytes.Buffer) (lr : io.LimitedReader) (n : Int),
    lr.R.sched.length + lr.R.curr.length + 1 ≤ fuel →
    ∃ n' lr', bytes.Buffer.ReadFrom.loop fuel b lr n =
        some ((n', copyErr lr.N lr.R.curr lr.R.fault),
              { buf := b.buf ++ lr.R.curr.take lr.N.toNat, room := b.room }, lr')
      ∧ lr'.R.rest = lr.R.rest ∧ lr'.R.trailer = lr.R.trailer ∧ lr'.R.fault = lr.R.fault
      ∧ lr'.R.curr = lr.R.curr.drop lr.N.toNat := by
  intro fuel
  induction fuel with
  | zero => intro b lr n h; omega
  | succ fuel ih =>
    intro b lr n hfuel
    obtain ⟨⟨rest, trailer, curr, fault, sched⟩, N⟩ := lr
    simp only at hfuel ⊢
    unfold bytes.Buffer.ReadFrom.loop
    by_cases hN : N ≤ 0
    · -- the limit is used up: io.EOF at once
      have hL : N.toNat = 0 := by omega
      simp [io.LimitedReader.Read, hN, hL, copyErr]
      exact ⟨_, _, ⟨rfl, rfl⟩, rfl, rfl, rfl, rfl⟩
    · have hNpos : 0 < N := by omega
      cases curr with
      | nil =>
        cases fault with
        | none =>
          simp [io.LimitedReader.Read, hN, tar.Reader.Read, copyErr]
          exact ⟨_, _, ⟨rfl, rfl⟩, rfl, rfl, rfl, rfl⟩
        | some e =>
          by_cases he : e = Error.EOF
          · subst he
            simp [io.LimitedReader.Read, hN, tar.Reader.Read, copyErr]
            exact ⟨_, _, ⟨rfl, rfl⟩, rfl, rfl, rfl, rfl⟩
          · have hpos : 0 < N.toNat := by omega
            simp [io.LimitedReader.Read, hN, tar.Reader.Read, copyErr, he, hpos]
            exact ⟨_, _, ⟨rfl, rfl⟩, rfl, rfl, rfl, rfl⟩
      | cons c cs =>
        obtain ⟨m, hm1, hm2, hm3, hread⟩ := LimitedReader_Read_body rest trailer c cs fault sched N
          (bytes.MinRead + b.room b.buf.length) hNpos (by unfold bytes.MinRead; omega)
        rw [hread]
        simp only
        have htl : ((c :: cs).take m).length = m := by
          rw [List.length_take]; exact Nat.min_eq_left hm1
        by_cases hend : ((c :: cs).drop m).isEmpty ∧ fault = none
        · -- the last bytes of a sound body, together with io.EOF
          have hml : (c :: cs).length ≤ m := by
            have := hend.1
            simp only [List.isEmpty_iff] at this
            have h2 := congrArg List.length this
            simp only [List.length_drop, List.length_nil] at h2
            omega
          have htake : (c :: cs).take N.toNat = c :: cs := List.take_of_length_le (by omega)
          have hdrop : (c :: cs).drop N.toNat = [] := List.drop_of_length_le (by omega)
          have htakem : (c :: cs).take m = c :: cs := List.take_of_length_le (by omega)
          have hdropm : (c :: cs).drop m = [] := List.drop_of_length_le (by omega)
          rw [if_pos hend, if_pos rfl]
          refine ⟨n + ((c :: cs).take m).length, ⟨⟨rest, trailer, (c :: cs).drop m, fault, sched.tail⟩,
            N - ((c :: cs).take m).length⟩, ?_, rfl, rfl, rfl, ?_⟩
          · have hc : copyErr N (c :: cs) fault = none := by
              simp [copyErr, hend.2]
            rw [hc, htake, htakem]
          · simp only [hdrop, hdropm]
        · -- more to come: the loop goes on
          rw [if_neg hend]
          simp only [reduceCtorEq, if_false]
          have hfuel' : (sched.tail).length + ((c :: cs).drop m).length + 1 ≤ fuel := by
            simp only [List.length_drop, List.length_tail]
            cases sched with
            | nil =>
              have := hm3 rfl
              simp only [List.length_nil] at hfuel ⊢
              omega
            | cons s ss =>
              simp only [List.length_cons] at hfuel ⊢
              omega
          obtain ⟨n', lr', h1, h2, h3, h4, h5⟩ := ih
            { buf := b.buf ++ (c :: cs).take m, room := b.room }
            { R := { rest := rest, trailer := trailer, curr := (c :: cs).drop m, fault := fault,
                     sched := sched.tail },
              N := N - ((c :: cs).take m).length }
            (n + ((c :: cs).take m).length) hfuel'
          simp only at h1 h2 h3 h4 h5
          have hNm : (N - ((c :: cs).take m).length).toNat = N.toNat - m := by
            rw [htl]; omega
          have hsplit : N.toNat = m + (N.toNat - m) := by omega
          refine ⟨n', lr', ?_, h2, h3, h4, ?_⟩
          · rw [h1]
            have hc : copyErr (N - ((c :: cs).take m).length) ((c :: cs).drop m) fault
                = copyErr N (c :: cs) fault := by
              unfold copyErr
              rw [hNm]
              simp only [List.length_drop]
              have : ((c :: cs).length - m < N.toNat - m) ↔ ((c :: cs).length < N.toNat) := by
                omega
              simp only [this]
            have hb : b.buf ++ (c :: cs).take m ++ ((c :: cs).drop m).take (N - ((c :: cs).take m).length).toNat
                = b.buf ++ (c :: cs).take N.toNat := by
              rw [hNm, List.append_assoc]
              congr 1
              conv_rhs => rw [hsplit, List.take_add]
            rw [hc, hb]
          · rw [h5, hNm, List.drop_drop]
            congr 1
            omega


theorem Copy_spec (b : bytes.Buffer) (lr : io.LimitedReader) :
    ∃ n' lr', io.Copy b lr =
        some ((n', copyErr lr.N lr.R.curr lr.R.fault),
              { buf := b.buf ++ lr.R.curr.take lr.N.toNat, room := b.room }, lr')
      ∧ lr'.R.rest = lr.R.rest ∧ lr'.R.trailer = lr.R.trailer ∧ lr'.R.fault = lr.R.fault
      ∧ lr'.R.curr = lr.R.curr.drop lr.N.toNat :=
  ReadFrom_loop_spec _ b lr 0 (le_refl _)

theorem seqOf_failure {κ : Type} (e : Error)
    (yield : TarItemAsn1 → Option Error → κ → Bool × κ) (k : κ) :
    seqOf [(TarItemAsn1.empty, some e)] yield k = some (yield TarItemAsn1.empty (some e) k).2 := by
  simp only [seqOf]
  rcases yield TarItemAsn1.empty (some e) k with ⟨c, k'⟩
  cases c <;> rfl

theorem ToItems_loop_eq_seqOf {κ : Type} (limit : Int)
    (yield : TarItemAsn1 → Option Error → κ → Bool × κ) :
    ∀ (fuel : Nat) (r : tar.Reader) (buf : bytes.Buffer) (k : κ), r.rest.length + 1 ≤ fuel →
      (TarReader.ToItems.loop limit yield fuel r buf k).map Prod.snd
        = seqOf (archiveOutcomes limit r.trailer r.fault r.rest) yield k := by
  intro fuel
  induction fuel with
  | zero => intro r buf k h; omega
  | succ fuel ih =>
    intro r buf k hfuel
    obtain ⟨rest, trailer, curr, fault, sched⟩ := r
    simp only at hfuel ⊢
    unfold TarReader.ToItems.loop
    cases fault with
    | some e =>
      simp only [tar.Reader.Next, archiveOutcomes]
      by_cases he : Error.EOF = e
      · simp [he, seqOf]
      · simp only [he, if_false, Option.map_some', seqOf_failure]
    | none =>
      cases rest with
      | nil =>
        simp only [tar.Reader.Next, archiveOutcomes]
        by_cases he : Error.EOF = trailer
        · simp [he, seqOf]
        · simp only [he, if_false, Option.map_some', seqOf_failure]
      | cons m ms =>
        simp only [tar.Reader.Next, archiveOutcomes]
        obtain ⟨n', lr', hc, h1, h2, h3, h4⟩ := Copy_spec buf.Reset
          { R := { rest := ms, trailer := trailer, curr := m.body, fault := m.fault, sched := sched },
            N := limit }
        simp only at hc h1 h2 h3 h4
        rw [hc]
        simp only
        cases hce : copyErr limit m.body m.fault with
        | some e =>
          simp only [Option.map_some', seqOf_failure]
        | none =>
          simp only [seqOf, bytes.Buffer.Bytes, bytes.Buffer.Reset, List.nil_append]
          have hrec : ({ FileHeader := TarHeader.ToHeader { Header := m.hdr },
                         Content := m.body.take limit.toNat } : TarItemAsn1) = recordOf limit m := rfl
          rw [hrec]
          rcases hy : yield (recordOf limit m) none k with ⟨c, k'⟩
          cases c with
          | false => simp
          | true =>
            simp only
            have := ih lr'.R { buf := m.body.take limit.toNat, room := buf.room } k'
              (by rw [h1]; simp only [List.length_cons] at hfuel; omega)
            rw [this, h1, h2, h3]


theorem ToItems_eq_seqOf {κ : Type} (r : TarReader) (limit : Int) (room : Nat → Nat)
    (yield : TarItemAsn1 → Option Error → κ → Bool × κ) (k : κ) :
    r.ToItems limit room yield k
      = seqOf (archiveOutcomes limit r.Reader.trailer r.Reader.fault r.Reader.rest) yield k :=
  ToItems_loop_eq_seqOf limit yield _ r.Reader _ k (le_refl _)

theorem seqOf_collect (os : List (TarItemAsn1 × Option Error)) :
    ∀ acc, seqOf os collect acc = some (acc ++ os) := by
  induction os with
  | nil => intro acc; simp [seqOf]
  | cons o rest ih =>
    intro acc
    obtain ⟨item, e⟩ := o
    simp only [seqOf, collect]
    rw [ih]
    simp

theorem outcomes_ToItems (r : TarReader) (limit : Int) (room : Nat → Nat) :
    outcomes (r.ToItems limit room)
      = some (archiveOutcomes limit r.Reader.trailer r.Reader.fault r.Reader.rest) := by
  unfold outcomes
  rw [ToItems_eq_seqOf, seqOf_collect]
  simp

theorem copyErr_ne_EOF (limit : Int) (curr : List Byte) (fault : Option Error) (e : Error)
    (h : copyErr limit curr fault = some e) : e ≠ Error.EOF := by
  unfold copyErr at h
  split_ifs at h
  cases fault with
  | none => simp at h
  | some f =>
    by_cases hf : f = Error.EOF
    · simp [hf] at h
    · simp [hf] at h
      rw [← h]; exact hf

theorem archiveOutcomes_shape (limit : Int) (trailer : Error) (ms : List tar.Member) :
    ∀ fault, ∃ (recs : List TarItemAsn1) (tail : List (TarItemAsn1 × Option Error)),
      archiveOutcomes limit trailer fault ms = recs.map (fun it => (it, none)) ++ tail
      ∧ (tail = [] ∨ ∃ e, e ≠ Error.EOF ∧ tail = [(TarItemAsn1.empty, some e)]) := by
  induction ms with
  | nil =>
    intro fault
    cases fault with
    | some e =>
      by_cases he : Error.EOF = e
      · exact ⟨[], [], by simp [archiveOutcomes, he], Or.inl rfl⟩
      · exact ⟨[], _, by simp [archiveOutcomes, he], Or.inr ⟨e, fun h => he h.symm, rfl⟩⟩
    | none =>
      by_cases he : Error.EOF = trailer
      · exact ⟨[], [], by simp [archiveOutcomes, he], Or.inl rfl⟩
      · exact ⟨[], _, by simp [archiveOutcomes, he], Or.inr ⟨trailer, fun h => he h.symm, rfl⟩⟩
  | cons m ms ih =>
    intro fault
    cases fault with
    | some e =>
      by_cases he : Error.EOF = e
      · exact ⟨[], [], by simp [archiveOutcomes, he], Or.inl rfl⟩
      · exact ⟨[], _, by simp [archiveOutcomes, he], Or.inr ⟨e, fun h => he h.symm, rfl⟩⟩
    | none =>
      cases hc : copyErr limit m.body m.fault with
      | some e =>
        exact ⟨[], _, by simp [archiveOutcomes, hc],
          Or.inr ⟨e, copyErr_ne_EOF _ _ _ _ hc, rfl⟩⟩
      | none =>
        obtain ⟨recs, tail, h1, h2⟩ := ih m.fault
        exact ⟨recordOf limit m :: recs, tail, by simp [archiveOutcomes, hc, h1], h2⟩

theorem archiveOutcomes_cap (limit : Int) (trailer : Error) (ms : List tar.Member) :
    ∀ fault, ∀ o ∈ archiveOutcomes limit trailer fault ms, o.2 = none →
      o.1.Content.length ≤ limit.toNat := by
  induction ms with
  | nil =>
    intro fault o ho hn
    cases fault with
    | some e =>
      simp only [archiveOutcomes] at ho
      split_ifs at ho
      · simp at ho
      · simp only [List.mem_singleton] at ho
        subst ho
        simp at hn
    | none =>
      simp only [archiveOutcomes] at ho
      split_ifs at ho
      · simp at ho
      · simp only [List.mem_singleton] at ho
        subst ho
        simp at hn
  | cons m ms ih =>
    intro fault o ho hn
    cases fault with
    | some e =>
      simp only [archiveOutcomes] at ho
      split_ifs at ho
      · simp at ho
      · simp only [List.mem_singleton] at ho
        subst ho
        simp at hn
    | none =>
      simp only [archiveOutcomes] at ho
      cases hc : copyErr limit m.body m.fault with
      | some e =>
        rw [hc] at ho
        simp only [List.mem_singleton] at ho
        subst ho
        simp at hn
      | none =>
        rw [hc] at ho
        simp only [List.mem_cons] at ho
        rcases ho with ho | ho
        · subst ho
          simp only [recordOf, List.length_take]
          exact Nat.min_le_left _ _
        · exact ih m.fault o ho hn

theorem archiveOutcomes_sound (limit : Int) (trailer : Error) (pre rest : List tar.Member)
    (hpre : ∀ p ∈ pre, p.fault = none) :
    archiveOutcomes limit trailer none (pre ++ rest)
      = pre.map (fun p => (recordOf limit p, none)) ++ archiveOutcomes limit trailer none rest := by
  induction pre with
  | nil => simp
  | cons p ps ih =>
    have hp : p.fault = none := hpre p (by simp)
    have hc : copyErr limit p.body p.fault = none := by simp [copyErr, hp]
    simp only [List.cons_append, archiveOutcomes, hc, List.map_cons]
    rw [hp]
    have := ih (fun q hq => hpre q (by simp [hq]))
    simp only [List.append_eq] at this ⊢
    rw [this]


/-! ## One turn of the loop of ToItems -/

theorem Next_ok (r r1 : tar.Reader) (hdr : tar.Header) (h : r.Next = (.ok hdr, r1)) :
    ∃ m ms, r.rest = m :: ms ∧ r.fault = none ∧ hdr = m.hdr
      ∧ r1 = { r with rest := ms, curr := m.body, fault := m.fault } := by
  unfold tar.Reader.Next at h
  cases hf : r.fault with
  | some e => simp [hf] at h
  | none =>
    cases hr : r.rest with
    | nil => simp [hf, hr] at h
    | cons m ms =>
      simp only [hf, hr, Prod.mk.injEq, Except.ok.injEq] at h
      exact ⟨m, ms, rfl, rfl, h.1.symm, h.2.symm⟩

/-- The loop does not depend on the fuel, once there is enough of it, nor on
what the buffer holds, which is reset before every copy. -/
theorem ToItems_loop_indep {κ : Type} (limit : Int)
    (yield : TarItemAsn1 → Option Error → κ → Bool × κ) :
    ∀ (fuel1 fuel2 : Nat) (r : tar.Reader) (b1 b2 : bytes.Buffer) (k : κ),
      r.rest.length + 1 ≤ fuel1 → r.rest.length + 1 ≤ fuel2 → b1.room = b2.room →
      TarReader.ToItems.loop limit yield fuel1 r b1 k
        = TarReader.ToItems.loop limit yield fuel2 r b2 k := by
  intro fuel1
  induction fuel1 with
  | zero => intro fuel2 r b1 b2 k h; omega
  | succ fuel1 ih =>
    intro fuel2 r b1 b2 k h1 h2 hroom
    cases fuel2 with
    | zero => omega
    | succ fuel2 =>
      have hreset : b1.Reset = b2.Reset := by
        cases b1; cases b2
        simp only [bytes.Buffer.Reset] at hroom ⊢
        rw [hroom]
      unfold TarReader.ToItems.loop
      rcases hn : r.Next with ⟨res, r1⟩
      cases res with
      | error e => rfl
      | ok hdr =>
        obtain ⟨m, ms, hrest, _, _, hr1⟩ := Next_ok r r1 hdr hn
        simp only [hreset]
        obtain ⟨n', lr', hc, hl1, _, _, _⟩ := Copy_spec b2.Reset { R := r1, N := limit }
        rw [hc]
        simp only
        cases copyErr limit r1.curr r1.fault with
        | some e => rfl
        | none =>
          simp only
          rcases yield { FileHeader := TarHeader.ToHeader { Header := hdr },
                         Content := bytes.Buffer.Bytes
                           { buf := b2.Reset.buf ++ r1.curr.take limit.toNat,
                             room := b2.Reset.room } } none k with ⟨c, k'⟩
          cases c with
          | false => rfl
          | true =>
            simp only
            have hlen : lr'.R.rest.length + 1 ≤ r.rest.length := by
              rw [hl1]
              simp only
              rw [hr1, hrest]
              simp
            exact ih fuel2 lr'.R _ _ k' (by omega) (by omega) rfl

/-- The collecting consumer gets the outcomes of the archive, and the reader
is left with the members the loop did not reach: no more members are entered
than outcomes are yielded. -/
theorem ToItems_loop_collect (limit : Int) :
    ∀ (fuel : Nat) (r : tar.Reader) (buf : bytes.Buffer) (acc : List (TarItemAsn1 × Option Error)),
      r.rest.length + 1 ≤ fuel →
      ∃ (final : tar.Reader) (n : Nat),
        TarReader.ToItems.loop limit collect fuel r buf acc
          = some (final, acc ++ archiveOutcomes limit r.trailer r.fault r.rest)
        ∧ n ≤ (archiveOutcomes limit r.trailer r.fault r.rest).length
        ∧ final.rest = r.rest.drop n := by
  intro fuel
  induction fuel with
  | zero => intro r buf acc h; omega
  | succ fuel ih =>
    intro r buf acc hfuel
    obtain ⟨rest, trailer, curr, fault, sched⟩ := r
    simp only at hfuel ⊢
    unfold TarReader.ToItems.loop
    cases fault with
    | some e =>
      simp only [tar.Reader.Next, archiveOutcomes]
      by_cases he : Error.EOF = e
      · exact ⟨⟨rest, trailer, curr, some e, sched⟩, 0, by simp [he], by simp, rfl⟩
      · exact ⟨⟨rest, trailer, curr, some e, sched⟩, 0, by simp [he, collect], by simp, rfl⟩
    | none =>
      cases rest with
      | nil =>
        simp only [tar.Reader.Next, archiveOutcomes]
        by_cases he : Error.EOF = trailer
        · exact ⟨⟨[], trailer, curr, none, sched⟩, 0, by simp [he], by simp, rfl⟩
        · exact ⟨⟨[], trailer, curr, none, sched⟩, 0, by simp [he, collect], by simp, rfl⟩
      | cons m ms =>
        simp only [tar.Reader.Next, archiveOutcomes]
        obtain ⟨n', lr', hc, h1, h2, h3, h4⟩ := Copy_spec buf.Reset
          { R := { rest := ms, trailer := trailer, curr := m.body, fault := m.fault, sched := sched },
            N := limit }
        simp only at hc h1 h2 h3 h4
        rw [hc]
        simp only
        cases hce : copyErr limit m.body m.fault with
        | some e =>
          exact ⟨lr'.R, 1, by simp [collect], by simp, by simp [h1]⟩
        | none =>
          simp only [collect, bytes.Buffer.Bytes, bytes.Buffer.Reset, List.nil_append]
          obtain ⟨final, n, hl, hn, hf⟩ := ih lr'.R { buf := m.body.take limit.toNat, room := buf.room }
            (acc ++ [(recordOf limit m, none)])
            (by rw [h1]; simp only [List.length_cons] at hfuel; omega)
          rw [h1, h2, h3] at hl hn
          rw [h1] at hf
          refine ⟨final, n + 1, ?_, by simp only [List.length_cons]; omega, by simpa using hf⟩
          have hrec : ({ FileHeader := TarHeader.ToHeader { Header := m.hdr },
                         Content := m.body.take limit.toNat } : TarItemAsn1) = recordOf limit m := rfl
          rw [hrec, hl]
          simp


/-- One turn of the loop of `ToItems`, for any consumer and any state of the
reader. -/
theorem ToItems_run_turn (r : TarReader) (limit : Int) (room : Nat → Nat)
    (κ : Type) (yield : TarItemAsn1 → Option Error → κ → Bool × κ) (k : κ) :
         match r.Reader.Next with
          | (.error e, r1) =>
            TarReader.ToItems.run r limit room yield k
              = some (r1, if Error.EOF = e then k else (yield TarItemAsn1.empty (some e) k).2)
          | (.ok hdr, r1) =>
            ∃ n err b lr,
              io.Copy { buf := [], room := room } { R := r1, N := limit } = some ((n, err), b, lr)
              ∧ match err with
                | some e =>
                  e ≠ Error.EOF
                  ∧ TarReader.ToItems.run r limit room yield k
                      = some (lr.R, (yield TarItemAsn1.empty (some e) k).2)
                | none =>
                  TarReader.ToItems.run r limit room yield k
                    = if (yield { FileHeader := TarHeader.ToHeader { Header := hdr },
                                  Content := b.Bytes } none k).1
                      then TarReader.ToItems.run { Reader := lr.R } limit room yield
                        (yield { FileHeader := TarHeader.ToHeader { Header := hdr },
                                 Content := b.Bytes } none k).2
                      else some (lr.R, (yield { FileHeader := TarHeader.ToHeader { Header := hdr },
                                                Content := b.Bytes } none k).2) := by
    unfold TarReader.ToItems.run TarReader.ToItems.loop
    rcases hn : r.Reader.Next with ⟨res, r1⟩
    cases res with
    | error e =>
      simp only
      split_ifs <;> rfl
    | ok hdr =>
      obtain ⟨m, ms, hrest, _, _, hr1⟩ := Next_ok r.Reader r1 hdr hn
      simp only [bytes.Buffer.Reset]
      obtain ⟨n', lr', hc, hl1, _, _, _⟩ := Copy_spec { buf := [], room := room }
        { R := r1, N := limit }
      simp only at hc hl1
      cases hce : copyErr limit r1.curr r1.fault with
      | some e =>
        rw [hce] at hc
        refine ⟨_, _, _, _, hc, ?_⟩
        simp only [hc]
        exact ⟨copyErr_ne_EOF _ _ _ _ hce, trivial⟩
      | none =>
        rw [hce] at hc
        refine ⟨_, _, _, _, hc, ?_⟩
        simp only [hc]
        rcases yield { FileHeader := TarHeader.ToHeader { Header := hdr },
                       Content := bytes.Buffer.Bytes
                         { buf := [] ++ r1.curr.take limit.toNat, room := room } } none k
          with ⟨c, k'⟩
        cases c with
        | false => rfl
        | true =>
          simp only [if_true]
          have hlen : lr'.R.rest.length + 1 ≤ r.Reader.rest.length := by
            rw [hl1, hr1, hrest]
            simp
          have h := ToItems_loop_indep limit yield r.Reader.rest.length (lr'.R.rest.length + 1) lr'.R
            { buf := [] ++ r1.curr.take limit.toNat, room := room } { buf := [], room := room } k'
            (by omega) (le_refl _) rfl
          rw [h]
          conv_lhs => unfold TarReader.ToItems.loop
          simp only [bytes.Buffer.Reset]
/-! ## The entry sequence -/

/-- Claim C5: for every limit and every state of the reader, the sequence of
`ToItems(limit)` is a list of outcomes, served in order to any consumer until
it stops: successful outcomes followed by at most one failing outcome, which
is the zero-value record with an error other than `io.EOF` and comes last;
no more members of the archive are entered than outcomes are yielded.

Every turn of the loop is as the claim says. A header read that fails with
`io.EOF` ends the sequence with nothing yielded; a header read that fails
with another error yields the zero-value record with that error and the loop
ends, the reader left as that read left it. When the header is read, the copy
of the body returns; if it fails, the zero-value record is yielded with the
error of the copy, which is not `io.EOF`, and the loop ends, the reader left
as the copy left it; otherwise the record is yielded and, unless the consumer
stops, the sequence goes on as the sequence of the reader in its new state.

Over the whole archive: when every member is sound the outcomes are the
records of all members and then, unless the archive ends with `io.EOF`, the
failure of the last header read; when the body of a member breaks off within
the limit, the outcomes are the records of the members before it and then
that one failure, whatever follows in the archive; when it breaks off beyond
the limit, the record of the member is yielded and the next header read
reports the failure. -/
theorem C5_sequence_shape (r : TarReader) (limit : Int) (room : Nat → Nat) :
    (∃ os : List (TarItemAsn1 × Option Error),
        outcomes (r.ToItems limit room) = some os
        ∧ os = archiveOutcomes limit r.Reader.trailer r.Reader.fault r.Reader.rest
        ∧ (∀ (κ : Type) (yield : TarItemAsn1 → Option Error → κ → Bool × κ) (k : κ),
            r.ToItems limit room yield k = seqOf os yield k)
        ∧ (∃ (recs : List TarItemAsn1) (tail : List (TarItemAsn1 × Option Error)),
            os = recs.map (fun it => (it, none)) ++ tail
            ∧ (tail = [] ∨ ∃ e, e ≠ Error.EOF ∧ tail = [(TarItemAsn1.empty, some e)]))
        ∧ ∃ (final : tar.Reader) (n : Nat),
            TarReader.ToItems.run r limit room collect [] = some (final, os)
            ∧ n ≤ os.length ∧ final.rest = r.Reader.rest.drop n)
    ∧ (∀ (κ : Type) (yield : TarItemAsn1 → Option Error → κ → Bool × κ) (k : κ),
        r.ToItems limit room yield k = (TarReader.ToItems.run r limit room yield k).map Prod.snd
        ∧ match r.Reader.Next with
          | (.error e, r1) =>
            TarReader.ToItems.run r limit room yield k
              = some (r1, if Error.EOF = e then k else (yield TarItemAsn1.empty (some e) k).2)
          | (.ok hdr, r1) =>
            ∃ n err b lr,
              io.Copy { buf := [], room := room } { R := r1, N := limit } = some ((n, err), b, lr)
              ∧ match err with
                | some e =>
                  e ≠ Error.EOF
                  ∧ TarReader.ToItems.run r limit room yield k
                      = some (lr.R, (yield TarItemAsn1.empty (some e) k).2)
                | none =>
                  TarReader.ToItems.run r limit room yield k
                    = if (yield { FileHeader := TarHeader.ToHeader { Header := hdr },
                                  Content := b.Bytes } none k).1
                      then TarReader.ToItems.run { Reader := lr.R } limit room yield
                        (yield { FileHeader := TarHeader.ToHeader { Header := hdr },
                                 Content := b.Bytes } none k).2
                      else some (lr.R, (yield { FileHeader := TarHeader.ToHeader { Header := hdr },
                                                Content := b.Bytes } none k).2))
    ∧ (r.Reader.fault = none → (∀ p ∈ r.Reader.rest, p.fault = none) →
        outcomes (r.ToItems limit room)
          = some (r.Reader.rest.map (fun p => (recordOf limit p, none))
              ++ if Error.EOF = r.Reader.trailer then []
                 else [(TarItemAsn1.empty, some r.Reader.trailer)]))
    ∧ (∀ (pre post : List tar.Member) (m : tar.Member) (e : Error),
        r.Reader.fault = none → r.Reader.rest = pre ++ m :: post →
        (∀ p ∈ pre, p.fault = none) → m.fault = some e → e ≠ Error.EOF →
        (m.body.length < limit.toNat →
          outcomes (r.ToItems limit room)
            = some (pre.map (fun p => (recordOf limit p, none)) ++ [(TarItemAsn1.empty, some e)]))
        ∧ (limit.toNat ≤ m.body.length →
          outcomes (r.ToItems limit room)
            = some (pre.map (fun p => (recordOf limit p, none))
                ++ [(recordOf limit m, none), (TarItemAsn1.empty, some e)]))) := by
  refine ⟨?_, ?_, ?_, ?_⟩
  · refine ⟨_, outcomes_ToItems r limit room, rfl, ?_, ?_, ?_⟩
    · intro κ yield k
      exact ToItems_eq_seqOf r limit room yield k
    · exact archiveOutcomes_shape limit r.Reader.trailer r.Reader.rest r.Reader.fault
    · obtain ⟨final, n, h1, h2, h3⟩ := ToItems_loop_collect limit (r.Reader.rest.length + 1)
        r.Reader { buf := [], room := room } [] (le_refl _)
      exact ⟨final, n, by simpa [TarReader.ToItems.run] using h1, h2, h3⟩
  · intro κ yield k
    exact ⟨rfl, ToItems_run_turn r limit room κ yield k⟩
  · intro hf hs
    rw [outcomes_ToItems, hf]
    have := archiveOutcomes_sound limit r.Reader.trailer r.Reader.rest [] hs
    simp only [List.append_nil] at this
    rw [this]
    simp [archiveOutcomes]
  · intro pre post m e hf hrest hpre hm he
    rw [outcomes_ToItems, hf, hrest, archiveOutcomes_sound limit r.Reader.trailer pre (m :: post) hpre]
    have hne : ¬ Error.EOF = e := fun h => he h.symm
    constructor
    · intro hlt
      simp [archiveOutcomes, copyErr, hm, hlt, he]
    · intro hge
      have hnlt : ¬ m.body.length < limit.toNat := by omega
      simp [archiveOutcomes, copyErr, hm, hnlt, hne]

/-- The sequence on an archive of three members of which the second breaks
off after one byte: the record of the first member, then the zero-value
record with the error of the broken body, and nothing of the third member,
which is left unread. -/
theorem C5_witness :
    outcomes (Sample.brokenReader.ToItems 1048576 Sample.room)
      = some [(Sample.item, none), (TarItemAsn1.empty, some Error.ErrUnexpectedEOF)]
    ∧ (TarReader.ToItems.run Sample.brokenReader 1048576 Sample.room collect []).map
        (fun p => p.1.rest.length) = some 1 :=
  ⟨((C5_sequence_shape Sample.brokenReader 1048576 Sample.room).2.2.2
      [{ hdr := Sample.hdr, body := [0x68, 0x69], fault := none }]
      [{ hdr := Sample.hdr, body := [0x68, 0x69], fault := none }]
      { hdr := Sample.hdr, body := [0x68], fault := some Error.ErrUnexpectedEOF }
      Error.ErrUnexpectedEOF rfl rfl (by decide) rfl (by decide)).1 (by decide),
    by decide⟩

/-- Claim C10, amended: for every limit (zero and negative values included)
every record that `ToItems(limit)` yields successfully has a Content of at
most `max(limit, 0)` bytes; in particular Content is empty when the limit is
zero or negative, and `len(Content) <= limit` holds for every limit that is
not negative. -/
theorem C10_content_cap (r : TarReader) (limit : Int) (room : Nat → Nat) :
    ∃ os, outcomes (r.ToItems limit room) = some os
      ∧ ∀ o ∈ os, o.2 = none → (o.1.Content.length : Int) ≤ max limit 0 := by
  refine ⟨_, outcomes_ToItems r limit room, ?_⟩
  intro o ho hn
  have := archiveOutcomes_cap limit r.Reader.trailer r.Reader.rest r.Reader.fault o ho hn
  omega

/-- Claim C10 as stated fails: with the limit -1 the record for `a.txt` is
yielded successfully with an empty Content, and 0 is not at most -1. -/
theorem C10_counterexample :
    outcomes (Sample.reader.ToItems (-1) Sample.room)
      = some [({ Sample.item with Content := [] }, none)]
    ∧ ¬ ((({ Sample.item with Content := [] } : TarItemAsn1).Content.length : Int) ≤ -1) := by
  refine ⟨by decide, by decide⟩

/-- Claim C1: for every limit that is not negative, and every member of the
archive whose body is sound and holds exactly the size its header reports
(the members before it being sound too, so that the reader gets there), the
outcome that `ToItems(limit)` yields at that member's position is a record
whose Content is the first min(Size, limit) bytes of the body, so of length
Size when Size <= limit and of length limit when Size > limit, while the
header's Size field is still the reported size. -/
theorem C1_truncation_law (r : TarReader) (limit : Int) (room : Nat → Nat)
    (before : List tar.Member) (m : tar.Member) (after : List tar.Member)
    (hlimit : 0 ≤ limit) (hstart : r.Reader.fault = none)
    (hrest : r.Reader.rest = before ++ m :: after)
    (hbefore : ∀ p ∈ before, p.fault = none) (hm : m.fault = none)
    (hsize : m.hdr.Size = m.body.length) :
    ∃ os item, outcomes (r.ToItems limit room) = some os
      ∧ os[before.length]? = some (item, none)
      ∧ item.Content = m.body.take (min m.hdr.Size limit).toNat
      ∧ (m.hdr.Size ≤ limit → (item.Content.length : Int) = m.hdr.Size)
      ∧ (m.hdr.Size > limit → (item.Content.length : Int) = limit)
      ∧ item.FileHeader.Size = m.hdr.Size := by
  have hc : copyErr limit m.body m.fault = none := by simp [copyErr, hm]
  refine ⟨_, recordOf limit m, outcomes_ToItems r limit room, ?_, ?_, ?_, ?_, rfl⟩
  · rw [hstart, hrest, archiveOutcomes_sound limit _ before (m :: after) hbefore]
    simp only [archiveOutcomes, hc]
    rw [List.getElem?_append_right (by simp)]
    simp
  · simp only [recordOf, hsize]
    by_cases h : (m.body.length : Int) ≤ limit
    · rw [min_eq_left h]
      simp only [Int.toNat_ofNat]
      rw [List.take_of_length_le (le_refl _), List.take_of_length_le (by omega)]
    · rw [min_eq_right (by omega)]
  · intro h
    simp only [recordOf, List.length_take]
    omega
  · intro h
    simp only [recordOf, List.length_take]
    omega

theorem C1_witness :
    (0 : Int) ≤ 1048576 ∧ Sample.bigReader.Reader.fault = none
    ∧ Sample.bigReader.Reader.rest = [] ++ Sample.big :: []
    ∧ (∀ p ∈ ([] : List tar.Member), p.fault = none) ∧ Sample.big.fault = none
    ∧ Sample.big.hdr.Size = Sample.big.body.length
    ∧ ∃ os item, outcomes (Sample.bigReader.ToItems 1048576 Sample.room) = some os
      ∧ os[([] : List tar.Member).length]? = some (item, none)
      ∧ item.Content = Sample.big.body.take (min Sample.big.hdr.Size 1048576).toNat
      ∧ (Sample.big.hdr.Size ≤ 1048576 → (item.Content.length : Int) = Sample.big.hdr.Size)
      ∧ (Sample.big.hdr.Size > 1048576 → (item.Content.length : Int) = 1048576)
      ∧ item.FileHeader.Size = Sample.big.hdr.Size :=
  have hsize : Sample.big.hdr.Size = Sample.big.body.length := by
    show (2000000 : Int) = ((List.replicate 2000000 0).length : Int)
    rw [List.length_replicate]
    rfl
  ⟨by decide, rfl, rfl, by simp, rfl, hsize,
    C1_truncation_law Sample.bigReader 1048576 Sample.room [] Sample.big []
      (by decide) rfl rfl (by simp) rfl hsize⟩


/-! ## DER lengths -/

theorem lengthLength_loop_spec : ∀ (fuel i nb : Nat), i ≤ fuel →
    ∃ d, asn1.lengthLength.loop fuel i nb = nb + d ∧ i < 256 ^ (d + 1) ∧ (0 < d → 256 ^ d ≤ i) := by
  intro fuel
  induction fuel with
  | zero =>
    intro i nb h
    have : i = 0 := by omega
    subst this
    exact ⟨0, rfl, by norm_num, fun h => absurd h (by omega)⟩
  | succ fuel ih =>
    intro i nb h
    unfold asn1.lengthLength.loop
    by_cases hi : i > 255
    · simp only [hi, if_true]
      have hdiv : i >>> 8 = i / 256 := by rw [Nat.shiftRight_eq_div_pow]
      rw [hdiv]
      obtain ⟨d, h1, h2, h3⟩ := ih (i / 256) (nb + 1) (by omega)
      refine ⟨d + 1, by rw [h1]; omega, ?_, ?_⟩
      · have : 256 ^ (d + 1 + 1) = 256 ^ (d + 1) * 256 := by ring
        rw [this]
        omega
      · intro _
        by_cases hd : 0 < d
        · have := h3 hd
          have e : 256 ^ (d + 1) = 256 ^ d * 256 := by ring
          rw [e]
          omega
        · have : d = 0 := by omega
          subst this
          norm_num
          omega
    · simp only [hi, if_false]
      exact ⟨0, rfl, by norm_num; omega, fun h => absurd h (by omega)⟩

theorem lengthLength_spec (i : Nat) :
    ∃ d, asn1.lengthLength i = d + 1 ∧ i < 256 ^ (d + 1) ∧ (0 < d → 256 ^ d ≤ i) := by
  obtain ⟨d, h1, h2, h3⟩ := lengthLength_loop_spec i i 1 (le_refl _)
  exact ⟨d, by unfold asn1.lengthLength; rw [h1]; omega, h2, h3⟩

theorem lengthLength_le (i : Nat) (h : i < 2 ^ 64) :
    1 ≤ asn1.lengthLength i ∧ asn1.lengthLength i ≤ 8 ∧ i < 256 ^ asn1.lengthLength i := by
  obtain ⟨d, h1, h2, h3⟩ := lengthLength_spec i
  refine ⟨by omega, ?_, by rw [h1]; exact h2⟩
  by_contra hc
  have hd : 8 ≤ d := by omega
  have := h3 (by omega)
  have hp : (256 : Nat) ^ 8 ≤ 256 ^ d := Nat.pow_le_pow_right (by norm_num) hd
  have e : (256 : Nat) ^ 8 = 2 ^ 64 := by norm_num
  omega

theorem beNat_foldl (ds : List Byte) : ∀ a : Nat,
    ds.foldl (fun acc b => acc * 256 + b) a = a * 256 ^ ds.length + der.beNat ds := by
  induction ds with
  | nil => intro a; simp [der.beNat]
  | cons d ds ih =>
    intro a
    simp only [List.foldl_cons, der.beNat, List.length_cons]
    rw [ih (a * 256 + d), ih (0 * 256 + d)]
    ring

theorem beNat_cons (d : Byte) (ds : List Byte) :
    der.beNat (d :: ds) = d * 256 ^ ds.length + der.beNat ds := by
  simp only [der.beNat, List.foldl_cons]
  rw [beNat_foldl ds (0 * 256 + d)]
  simp [der.beNat]

theorem beNat_digits (i : Nat) : ∀ L : Nat,
    der.beNat ((List.range L).reverse.map (fun m => (i >>> (m * 8)) % 256)) = i % 256 ^ L := by
  intro L
  induction L with
  | zero => simp [der.beNat, Nat.mod_one]
  | succ L ih =>
    rw [List.range_succ, List.reverse_append, List.reverse_singleton, List.singleton_append,
      List.map_cons, beNat_cons, ih]
    simp only [List.length_map, List.length_reverse, List.length_range]
    rw [Nat.shiftRight_eq_div_pow, pow_mul']
    norm_num
    rw [Nat.mod_pow_succ]
    ring

theorem appendLength_spec (i : Nat) (h : i < 2 ^ 64) :
    (asn1.appendLength [] i).length = asn1.lengthLength i ∧ der.beNat (asn1.appendLength [] i) = i := by
  unfold asn1.appendLength
  obtain ⟨_, _, h3⟩ := lengthLength_le i h
  refine ⟨by simp, ?_⟩
  rw [List.nil_append, beNat_digits]
  exact Nat.mod_eq_of_lt h3

theorem readTLV_element (tag : Nat) (c : Bool) (body rest : List Byte)
    (htag : tag < 31) (hlen : body.length < 2 ^ 64) :
    der.readTLV (asn1.appendTagAndLength []
        { cls := asn1.ClassUniversal, tag := tag, length := body.length, isCompound := c }
        ++ body ++ rest)
      = some ((if c then 32 else 0) ||| tag, body, rest) := by
  have hid : (if c = true then (0 <<< 6 % 256 ||| 32 : Nat) else 0 <<< 6 % 256) ||| tag % 256
      = (if c then 32 else 0) ||| tag := by
    have : tag % 256 = tag := Nat.mod_eq_of_lt (by omega)
    rw [this]
    cases c <;> simp
  unfold asn1.appendTagAndLength
  simp only [asn1.ClassUniversal, ge_iff_le, show ¬ 31 ≤ tag by omega, if_false, List.nil_append, hid]
  by_cases hl : 128 ≤ body.length
  · simp only [hl, if_true]
    obtain ⟨hl1, hl8, _⟩ := lengthLength_le body.length hlen
    obtain ⟨ha1, ha2⟩ := appendLength_spec body.length hlen
    have hor : 128 ||| asn1.lengthLength body.length % 256 = 128 + asn1.lengthLength body.length := by
      generalize asn1.lengthLength body.length = L at hl1 hl8
      interval_cases L <;> rfl
    have happ : asn1.appendLength [(if c then 32 else 0) ||| tag, 128 ||| asn1.lengthLength body.length % 256]
        body.length = ((if c then 32 else 0) ||| tag) :: (128 + asn1.lengthLength body.length)
          :: asn1.appendLength [] body.length := by
      unfold asn1.appendLength
      rw [hor]
      simp
    simp only [List.cons_append, List.nil_append]
    rw [happ]
    simp only [List.cons_append, der.readTLV, List.append_assoc]
    have h1 : ¬ (128 + asn1.lengthLength body.length < 128) := by omega
    have h2 : 128 + asn1.lengthLength body.length - 128 = (asn1.appendLength [] body.length).length := by
      rw [ha1]; omega
    simp only [h1, if_false, h2, List.take_left', List.drop_left', List.length_append, ha2]
    simp
  · simp only [hl, if_false]
    have hm : body.length % 256 = body.length := Nat.mod_eq_of_lt (by omega)
    rw [hm]
    simp only [List.cons_append, List.nil_append, der.readTLV, List.append_assoc]
    have h1 : body.length < 128 := by omega
    simp [h1]


theorem readTLV_taggedEncoder (tag : Nat) (c : Bool) (body rest : List Byte)
    (htag : tag < 31) (hlen : body.length < 2 ^ 64) :
    der.readTLV (asn1.taggedEncoder tag c body ++ rest)
      = some ((if c then 32 else 0) ||| tag, body, rest) := by
  unfold asn1.taggedEncoder
  exact readTLV_element tag c body rest htag hlen

theorem taggedEncoder_length (tag : Nat) (c : Bool) (body : List Byte) :
    body.length + 2 ≤ (asn1.taggedEncoder tag c body).length := by
  unfold asn1.taggedEncoder asn1.appendTagAndLength
  simp only [List.length_append]
  split_ifs <;> simp [asn1.appendLength, asn1.appendBase128Int] <;> omega

theorem readTLV_rest_length (bs : List Byte) (ident : Nat) (c rest : List Byte)
    (h : der.readTLV bs = some (ident, c, rest)) : rest.length + 2 ≤ bs.length := by
  unfold der.readTLV at h
  match bs, h with
  | i :: l :: r, h =>
    simp only at h
    split_ifs at h <;> simp only [Option.some.injEq, Prod.mk.injEq] at h
    · obtain ⟨_, _, h3⟩ := h
      rw [← h3]
      simp only [List.length_drop, List.length_cons]
      omega
    · obtain ⟨_, _, h3⟩ := h
      rw [← h3]
      simp only [List.length_drop, List.length_cons]
      omega

theorem elements_loop_fuel : ∀ (f1 f2 : Nat) (bs : List Byte), bs.length ≤ f1 → bs.length ≤ f2 →
    der.elements.loop f1 bs = der.elements.loop f2 bs := by
  intro f1
  induction f1 with
  | zero =>
    intro f2 bs h1 h2
    have : bs = [] := List.length_eq_zero.mp (by omega)
    subst this
    cases f2 <;> simp [der.elements.loop]
  | succ f1 ih =>
    intro f2 bs h1 h2
    cases bs with
    | nil => cases f2 <;> simp [der.elements.loop]
    | cons b bs =>
      cases f2 with
      | zero => simp at h2
      | succ f2 =>
        simp only [der.elements.loop, List.isEmpty_cons, Bool.false_eq_true, if_false]
        cases hr : der.readTLV (b :: bs) with
        | none => rfl
        | some x =>
          obtain ⟨ident, c, rest⟩ := x
          have := readTLV_rest_length _ _ _ _ hr
          simp only [List.length_cons] at this h1 h2
          simp only
          rw [ih f2 rest (by omega) (by omega)]

theorem elements_cons (tag : Nat) (c : Bool) (body rest : List Byte)
    (htag : tag < 31) (hlen : body.length < 2 ^ 64) :
    der.elements (asn1.taggedEncoder tag c body ++ rest)
      = match der.elements rest with
        | none => none
        | some es => some (((if c then 32 else 0) ||| tag, body) :: es) := by
  unfold der.elements
  have hl := taggedEncoder_length tag c body
  cases hf : (asn1.taggedEncoder tag c body ++ rest).length with
  | zero => simp only [List.length_append] at hf; omega
  | succ n =>
    have hne : (asn1.taggedEncoder tag c body ++ rest).isEmpty = false := by
      cases hx : asn1.taggedEncoder tag c body ++ rest with
      | nil => rw [hx] at hf; simp at hf
      | cons _ _ => rfl
    simp only [der.elements.loop, hne, Bool.false_eq_true, if_false,
      readTLV_taggedEncoder tag c body rest htag hlen]
    rw [elements_loop_fuel n rest.length rest (by simp only [List.length_append] at hf; omega) (le_refl _)]

theorem elements_nil : der.elements [] = some [] := by
  simp [der.elements, der.elements.loop]


/-! ## What Marshal writes -/

theorem parseFieldParameters_empty :
    asn1.parseFieldParameters "" = { stringType := 0, timeType := 0 } := by decide

theorem parseFieldParameters_utf8 :
    asn1.parseFieldParameters "utf8" = { stringType := asn1.TagUTF8String, timeType := 0 } := by
  decide

theorem makeField_int (t : asn1.GoType) (v : Int)
    (ht : t = .FileType ∨ t = .Format ∨ t = .int ∨ t = .int64) :
    asn1.makeField.wrap (.int t v) { stringType := 0, timeType := 0 }
        (asn1.makeBody (.int t v) { stringType := 0, timeType := 0 })
      = .ok (asn1.taggedEncoder asn1.TagInteger false (asn1.int64Encoder.Encode v)) := by
  rcases ht with h | h | h | h <;> subst h <;>
    simp [asn1.makeField.wrap, asn1.makeBody, asn1.getUniversalType, asn1.Value.typ,
      asn1.timeType, asn1.enumeratedType, asn1.GoType.Kind, asn1.makeField.switchTag,
      asn1.TagInteger, asn1.TagPrintableString, asn1.TagUTCTime]

theorem makeField_utf8 (s : List Byte) :
    asn1.makeField.wrap (.string s) { stringType := asn1.TagUTF8String, timeType := 0 }
        (asn1.makeBody (.string s) { stringType := asn1.TagUTF8String, timeType := 0 })
      = .ok (asn1.taggedEncoder asn1.TagUTF8String false s) := by
  simp [asn1.makeField.wrap, asn1.makeBody, asn1.getUniversalType, asn1.Value.typ,
    asn1.timeType, asn1.enumeratedType, asn1.GoType.Kind, asn1.makeField.switchTag,
    asn1.TagUTF8String, asn1.TagPrintableString, asn1.TagUTCTime, asn1.makeUTF8String]

theorem makeField_bytes (b : List Byte) :
    asn1.makeField.wrap (.bytes b) { stringType := 0, timeType := 0 }
        (asn1.makeBody (.bytes b) { stringType := 0, timeType := 0 })
      = .ok (asn1.taggedEncoder asn1.TagOctetString false b) := by
  simp [asn1.makeField.wrap, asn1.makeBody, asn1.getUniversalType, asn1.Value.typ,
    asn1.timeType, asn1.enumeratedType, asn1.GoType.Kind, asn1.makeField.switchTag,
    asn1.TagOctetString, asn1.TagPrintableString, asn1.TagUTCTime]

theorem makeField_time (t : Time) :
    asn1.makeField.wrap (.time t) { stringType := 0, timeType := 0 }
        (asn1.makeBody (.time t) { stringType := 0, timeType := 0 })
      = match asn1.timeBody t with
        | .error e => .error e
        | .ok b => .ok (asn1.taggedEncoder (asn1.timeTag t) false b) := by
  have hb : asn1.makeBody (.time t) { stringType := 0, timeType := 0 } = asn1.timeBody t := by
    simp [asn1.makeBody, asn1.timeBody, asn1.TagGeneralizedTime]
  rw [hb]
  by_cases h : asn1.outsideUTCRange t <;>
    cases asn1.timeBody t <;>
    simp [asn1.makeField.wrap, asn1.getUniversalType, asn1.Value.typ,
      asn1.timeType, asn1.enumeratedType, asn1.GoType.Kind, asn1.makeField.switchTag,
      asn1.timeTag, asn1.TagPrintableString, asn1.TagUTCTime, asn1.TagGeneralizedTime, h]

theorem makeField_struct (t : asn1.GoType) (fields : List (asn1.Value × String))
    (ht : t = .FileHeader ∨ t = .TarItemAsn1) :
    asn1.makeField.wrap (.struct t fields) { stringType := 0, timeType := 0 }
        (asn1.makeBody (.struct t fields) { stringType := 0, timeType := 0 })
      = match asn1.makeFields fields with
        | .error e => .error e
        | .ok b => .ok (asn1.taggedEncoder asn1.TagSequence true b) := by
  have hb : asn1.makeBody (.struct t fields) { stringType := 0, timeType := 0 }
      = asn1.makeFields fields := by
    simp [asn1.makeBody]
  rw [hb]
  rcases ht with h | h <;> subst h <;> cases asn1.makeFields fields <;>
    simp [asn1.makeField.wrap, asn1.getUniversalType, asn1.Value.typ,
      asn1.timeType, asn1.enumeratedType, asn1.GoType.Kind, asn1.makeField.switchTag,
      asn1.TagSequence, asn1.TagPrintableString, asn1.TagUTCTime]


theorem makeFields_cons (v : asn1.Value) (tag : String) (rest : List (asn1.Value × String)) :
    asn1.makeFields ((v, tag) :: rest)
      = match asn1.makeField.wrap v (asn1.parseFieldParameters tag)
            (asn1.makeBody v (asn1.parseFieldParameters tag)) with
        | .error e => .error e
        | .ok m =>
          match asn1.makeFields rest with
          | .error e => .error e
          | .ok ms => .ok (m ++ ms) := by
  rw [asn1.makeFields]

theorem makeFields_nil : asn1.makeFields [] = .ok [] := by
  rw [asn1.makeFields]

/-- The header fields encode exactly when the time can be written; the body
is then the eleven elements. -/
theorem makeFields_header (h : FileHeader) (bs : List Byte)
    (hb : asn1.makeFields
      [ (.int .FileType h.FileType, ""), (.string h.Name, "utf8"), (.string h.Linkname, "utf8"),
        (.int .int64 h.Size, ""), (.int .int64 h.Mode, ""), (.int .int h.Uid, ""),
        (.int .int h.Gid, ""), (.string h.Uname, "utf8"), (.string h.Gname, "utf8"),
        (.time h.Modified, ""), (.int .Format h.Format, "") ] = .ok bs) :
    ∃ tb, asn1.timeBody h.Modified = .ok tb ∧ bs = asn1.encodeElements (h.elements tb) := by
  simp only [makeFields_cons, makeFields_nil, parseFieldParameters_empty,
    parseFieldParameters_utf8, makeField_utf8, makeField_time,
    makeField_int _ _ (Or.inl rfl), makeField_int _ _ (Or.inr (Or.inl rfl)),
    makeField_int _ _ (Or.inr (Or.inr (Or.inl rfl))),
    makeField_int _ _ (Or.inr (Or.inr (Or.inr rfl)))] at hb
  cases ht : asn1.timeBody h.Modified with
  | error e => simp [ht] at hb
  | ok tb =>
    simp only [ht, Except.ok.injEq] at hb
    refine ⟨tb, rfl, ?_⟩
    rw [← hb]
    simp [asn1.encodeElements, FileHeader.elements, List.flatMap]

theorem ToDerBytes_ok (i : TarItemAsn1) (bs : List Byte) (hb : i.ToDerBytes = .ok bs) :
    ∃ tb, asn1.timeBody i.FileHeader.Modified = .ok tb
      ∧ bs = asn1.taggedEncoder asn1.TagSequence true
          (asn1.taggedEncoder asn1.TagSequence true
              (asn1.encodeElements (i.FileHeader.elements tb))
            ++ asn1.taggedEncoder asn1.TagOctetString false i.Content) := by
  unfold TarItemAsn1.ToDerBytes asn1.Marshal asn1.makeField TarItemAsn1.toValue at hb
  rw [parseFieldParameters_empty, makeField_struct _ _ (Or.inr rfl)] at hb
  cases h1 : asn1.makeFields [(i.FileHeader.toValue, ""), (.bytes i.Content, "")] with
  | error e => simp [h1] at hb
  | ok body =>
    simp only [h1, Except.ok.injEq] at hb
    rw [makeFields_cons, makeFields_cons, makeFields_nil, parseFieldParameters_empty,
      makeField_bytes] at h1
    unfold FileHeader.toValue at h1
    rw [makeField_struct _ _ (Or.inl rfl)] at h1
    cases h2 : asn1.makeFields
      [ (.int .FileType i.FileHeader.FileType, ""), (.string i.FileHeader.Name, "utf8"),
        (.string i.FileHeader.Linkname, "utf8"), (.int .int64 i.FileHeader.Size, ""),
        (.int .int64 i.FileHeader.Mode, ""), (.int .int i.FileHeader.Uid, ""),
        (.int .int i.FileHeader.Gid, ""), (.string i.FileHeader.Uname, "utf8"),
        (.string i.FileHeader.Gname, "utf8"), (.time i.FileHeader.Modified, ""),
        (.int .Format i.FileHeader.Format, "") ] with
    | error e => simp [h2] at h1
    | ok hbody =>
      obtain ⟨tb, ht, hh⟩ := makeFields_header i.FileHeader hbody h2
      simp only [h2, Except.ok.injEq, List.append_nil] at h1
      refine ⟨tb, ht, ?_⟩
      rw [← hb, ← h1, hh]

theorem FileHeader_ToDerBytes_ok (h : FileHeader) (bs : List Byte) (hb : h.ToDerBytes = .ok bs) :
    ∃ tb, asn1.timeBody h.Modified = .ok tb
      ∧ bs = asn1.taggedEncoder asn1.TagSequence true (asn1.encodeElements (h.elements tb)) := by
  unfold FileHeader.ToDerBytes asn1.Marshal asn1.makeField FileHeader.toValue at hb
  rw [parseFieldParameters_empty, makeField_struct _ _ (Or.inl rfl)] at hb
  cases h2 : asn1.makeFields
      [ (.int .FileType h.FileType, ""), (.string h.Name, "utf8"),
        (.string h.Linkname, "utf8"), (.int .int64 h.Size, ""),
        (.int .int64 h.Mode, ""), (.int .int h.Uid, ""),
        (.int .int h.Gid, ""), (.string h.Uname, "utf8"),
        (.string h.Gname, "utf8"), (.time h.Modified, ""),
        (.int .Format h.Format, "") ] with
  | error e => simp [h2] at hb
  | ok hbody =>
    obtain ⟨tb, ht, hh⟩ := makeFields_header h hbody h2
    simp only [h2, Except.ok.injEq] at hb
    exact ⟨tb, ht, by rw [← hb, hh]⟩


theorem encodeElements_cons (e : Nat × List Byte) (es : List (Nat × List Byte)) :
    asn1.encodeElements (e :: es) = asn1.taggedEncoder e.1 false e.2 ++ asn1.encodeElements es := by
  simp [asn1.encodeElements, List.flatMap]

theorem encodeElements_length (es : List (Nat × List Byte)) :
    ∀ e ∈ es, e.2.length ≤ (asn1.encodeElements es).length := by
  induction es with
  | nil => intro e he; simp at he
  | cons a as ih =>
    intro e he
    rw [encodeElements_cons, List.length_append]
    have := taggedEncoder_length a.1 false a.2
    rcases List.mem_cons.mp he with h | h
    · subst h; omega
    · have := ih e h; omega

theorem elements_encodeElements (es : List (Nat × List Byte))
    (h : ∀ e ∈ es, e.1 < 31 ∧ e.2.length < 2 ^ 64) :
    der.elements (asn1.encodeElements es) = some es := by
  induction es with
  | nil => simpa [asn1.encodeElements] using elements_nil
  | cons a as ih =>
    rw [encodeElements_cons, elements_cons a.1 false a.2 _ (h a (by simp)).1 (h a (by simp)).2,
      ih (fun e he => h e (by simp [he]))]
    simp

theorem FileHeader_elements_tags (h : FileHeader) (tb : List Byte) :
    ∀ e ∈ h.elements tb, e.1 < 31 := by
  intro e he
  simp only [FileHeader.elements, List.mem_cons, List.mem_singleton, List.not_mem_nil,
    or_false] at he
  have ht : asn1.timeTag h.Modified < 31 := by
    unfold asn1.timeTag
    split_ifs <;> decide
  rcases he with he | he | he | he | he | he | he | he | he | he | he <;> subst he <;>
    first
    | exact ht
    | (simp only [asn1.TagInteger, asn1.TagUTF8String]; omega)

theorem parseRecord_ToDerBytes (i : TarItemAsn1) (bs : List Byte)
    (hb : i.ToDerBytes = .ok bs) (hlen : bs.length < 2 ^ 63) :
    ∃ tb, asn1.timeBody i.FileHeader.Modified = .ok tb
      ∧ der.parseRecord bs = some (i.FileHeader.elements tb, i.Content) := by
  obtain ⟨tb, ht, hbs⟩ := ToDerBytes_ok i bs hb
  refine ⟨tb, ht, ?_⟩
  generalize hH : asn1.encodeElements (i.FileHeader.elements tb) = H at hbs
  generalize hC : i.Content = C at hbs
  have hp : (2 : Nat) ^ 63 < 2 ^ 64 := by norm_num
  generalize (2 : Nat) ^ 63 = B63 at hlen hp
  have l1 := taggedEncoder_length asn1.TagSequence true
    (asn1.taggedEncoder asn1.TagSequence true H ++ asn1.taggedEncoder asn1.TagOctetString false C)
  have l2 := taggedEncoder_length asn1.TagSequence true H
  have l3 := taggedEncoder_length asn1.TagOctetString false C
  rw [← hbs, List.length_append] at l1
  have hes : ∀ e ∈ i.FileHeader.elements tb, e.1 < 31 ∧ e.2.length < 2 ^ 64 := by
    intro e he
    refine ⟨FileHeader_elements_tags _ _ e he, ?_⟩
    have := encodeElements_length _ e he
    rw [hH] at this
    omega
  have r1 := readTLV_taggedEncoder asn1.TagSequence true
    (asn1.taggedEncoder asn1.TagSequence true H ++ asn1.taggedEncoder asn1.TagOctetString false C)
    [] (by decide) (by rw [List.length_append]; omega)
  rw [List.append_nil, ← hbs] at r1
  have r2 := readTLV_taggedEncoder asn1.TagSequence true H
    (asn1.taggedEncoder asn1.TagOctetString false C) (by decide) (by omega)
  have r3 := readTLV_taggedEncoder asn1.TagOctetString false C [] (by decide) (by omega)
  rw [List.append_nil] at r3
  have r4 := elements_encodeElements _ hes
  rw [hH] at r4
  unfold der.parseRecord
  rw [r1]
  simp only [r2, r3, r4]
  rw [← hC]
  rfl

theorem parseHeader_ToDerBytes (h : FileHeader) (bs : List Byte)
    (hb : h.ToDerBytes = .ok bs) (hlen : bs.length < 2 ^ 63) :
    ∃ tb, asn1.timeBody h.Modified = .ok tb ∧ der.parseHeader bs = some (h.elements tb) := by
  obtain ⟨tb, ht, hbs⟩ := FileHeader_ToDerBytes_ok h bs hb
  refine ⟨tb, ht, ?_⟩
  subst hbs
  have l2 := taggedEncoder_length asn1.TagSequence true (asn1.encodeElements (h.elements tb))
  have hes : ∀ e ∈ h.elements tb, e.1 < 31 ∧ e.2.length < 2 ^ 64 := by
    intro e he
    refine ⟨FileHeader_elements_tags _ _ e he, ?_⟩
    have := encodeElements_length _ e he
    omega
  unfold der.parseHeader
  have r2 := readTLV_taggedEncoder asn1.TagSequence true
    (asn1.encodeElements (h.elements tb)) [] (by decide) (by omega)
  rw [List.append_nil] at r2
  rw [r2]
  simp only [elements_encodeElements _ hes]
  simp [der.SEQUENCE, asn1.TagSequence]


/-! ## INTEGER contents -/

theorem Int_shiftRight_8 (i : Int) : i >>> (8 : Nat) = i / 256 := by
  rw [Int.shiftRight_eq_div_pow]; norm_num

theorem Len_up_small (fuel : Nat) (i : Int) (n : Nat) (h : i ≤ 127) :
    asn1.int64Encoder.Len.up fuel i n = (i, n) := by
  cases fuel with
  | zero => rfl
  | succ f => simp [asn1.int64Encoder.Len.up]; intro h'; omega

theorem Len_down_small (fuel : Nat) (i : Int) (n : Nat) (h : -128 ≤ i) :
    asn1.int64Encoder.Len.down fuel i n = (i, n) := by
  cases fuel with
  | zero => rfl
  | succ f => simp [asn1.int64Encoder.Len.down]; intro h'; omega

theorem Len_up_spec : ∀ (fuel : Nat) (i : Int) (n : Nat), i.natAbs ≤ fuel → 0 ≤ i →
    ∃ (d : Nat) (j : Int), asn1.int64Encoder.Len.up fuel i n = (j, n + d) ∧ 0 ≤ j ∧ j ≤ 127
      ∧ i < 128 * 256 ^ d := by
  intro fuel
  induction fuel with
  | zero =>
    intro i n h h0
    have : i = 0 := by omega
    subst this
    exact ⟨0, 0, rfl, le_refl _, by norm_num, by norm_num⟩
  | succ fuel ih =>
    intro i n h h0
    by_cases hi : i > 127
    · simp only [asn1.int64Encoder.Len.up, hi, if_true, Int_shiftRight_8]
      obtain ⟨d, j, h1, h2, h3, h4⟩ := ih (i / 256) (n + 1) (by omega) (by omega)
      refine ⟨d + 1, j, by rw [h1]; congr 1; omega, h2, h3, ?_⟩
      have e : (256 : Int) ^ (d + 1) = 256 ^ d * 256 := by ring
      rw [e]
      omega
    · rw [Len_up_small _ _ _ (by omega)]
      exact ⟨0, i, rfl, h0, by omega, by norm_num; omega⟩

theorem Len_down_spec : ∀ (fuel : Nat) (i : Int) (n : Nat), i.natAbs ≤ fuel → i < 0 →
    ∃ d : Nat, (asn1.int64Encoder.Len.down fuel i n).2 = n + d ∧ -(128 * 256 ^ d) ≤ i := by
  intro fuel
  induction fuel with
  | zero => intro i n h h0; omega
  | succ fuel ih =>
    intro i n h h0
    by_cases hi : i < -128
    · simp only [asn1.int64Encoder.Len.down, hi, if_true, Int_shiftRight_8]
      obtain ⟨d, h1, h2⟩ := ih (i / 256) (n + 1) (by omega) (by omega)
      refine ⟨d + 1, by rw [h1]; omega, ?_⟩
      have e : (256 : Int) ^ (d + 1) = 256 ^ d * 256 := by ring
      rw [e]
      omega
    · rw [Len_down_small _ _ _ (by omega)]
      exact ⟨0, rfl, by norm_num; omega⟩

theorem Len_spec (i : Int) :
    ∃ d : Nat, asn1.int64Encoder.Len i = d + 1 ∧ -(128 * 256 ^ d) ≤ i ∧ i < 128 * 256 ^ d := by
  unfold asn1.int64Encoder.Len
  by_cases h0 : 0 ≤ i
  · obtain ⟨d, j, h1, h2, h3, h4⟩ := Len_up_spec i.natAbs i 1 (le_refl _) h0
    simp only [h1]
    rw [Len_down_small _ _ _ (by omega)]
    refine ⟨d, by simp only; omega, ?_, h4⟩
    have : (0 : Int) < 256 ^ d := by positivity
    omega
  · rw [Len_up_small _ _ _ (by omega)]
    obtain ⟨d, h1, h2⟩ := Len_down_spec i.natAbs i 1 (le_refl _) (by omega)
    refine ⟨d, by simp only; rw [h1]; omega, h2, ?_⟩
    have : (0 : Int) < 256 ^ d := by positivity
    omega


theorem Int_shiftRight_0 (i : Int) : i >>> (0 : Nat) = i := by
  rw [Int.shiftRight_eq_div_pow]; simp

theorem intDigits_succ (L : Nat) (i : Int) :
    (List.range (L + 1)).map (fun j => ((i >>> ((L + 1 - 1 - j) * 8)) % 256).toNat)
      = (List.range L).map (fun j => (((i >>> (8 : Nat)) >>> ((L - 1 - j) * 8)) % 256).toNat)
        ++ [(i % 256).toNat] := by
  rw [List.range_succ, List.map_append]
  congr 1
  · apply List.map_congr_left
    intro j hj
    have hj' : j < L := List.mem_range.mp hj
    have e : (L + 1 - 1 - j) * 8 = 8 + (L - 1 - j) * 8 := by omega
    rw [e, Int.shiftRight_add]
  · simp [Int_shiftRight_0]

theorem beNat_snoc (l : List Byte) (b : Byte) : der.beNat (l ++ [b]) = der.beNat l * 256 + b := by
  simp [der.beNat, List.foldl_append]

theorem decodeInt_snoc (x : Byte) (xs : List Byte) (b : Byte) :
    der.decodeInt ((x :: xs) ++ [b]) = der.decodeInt (x :: xs) * 256 + b := by
  have hb := beNat_snoc (x :: xs) b
  simp only [List.cons_append] at hb
  simp only [der.decodeInt, List.cons_append, hb, List.length_cons, List.length_append,
    List.length_singleton, List.length_nil]
  split_ifs
  · push_cast; ring
  · push_cast; ring

theorem decodeInt_digits : ∀ (d : Nat) (i : Int), -(128 * 256 ^ d) ≤ i → i < 128 * 256 ^ d →
    der.decodeInt ((List.range (d + 1)).map
      (fun j => ((i >>> ((d + 1 - 1 - j) * 8)) % 256).toNat)) = i := by
  intro d
  induction d with
  | zero =>
    intro i h1 h2
    simp only [pow_zero, mul_one] at h1 h2
    simp only [List.range_succ, List.range_zero, List.nil_append, List.map_cons, List.map_nil,
      der.decodeInt, der.beNat, List.foldl_cons, List.foldl_nil, List.length_singleton]
    simp only [Nat.sub_self, Nat.zero_mul, Int_shiftRight_0, Nat.zero_add, pow_one, ge_iff_le]
    have hm : 0 ≤ i % 256 := Int.emod_nonneg i (by norm_num)
    have ht : ((i % 256).toNat : Int) = i % 256 := Int.toNat_of_nonneg hm
    split_ifs with hc
    · have hc' : (128 : Int) ≤ i % 256 := by rw [← ht]; exact_mod_cast hc
      rw [ht]; omega
    · have hc' : i % 256 < 128 := by
        rw [← ht]
        have : (i % 256).toNat < 128 := Nat.lt_of_not_le hc
        exact_mod_cast this
      rw [ht]; omega
  | succ d ih =>
    intro i h1 h2
    rw [intDigits_succ]
    have e : (256 : Int) ^ (d + 1) = 256 ^ d * 256 := by ring
    rw [e] at h1 h2
    have hi := ih (i >>> (8 : Nat)) (by rw [Int_shiftRight_8]; omega) (by rw [Int_shiftRight_8]; omega)
    have hne : (List.range (d + 1)).map
        (fun j => (((i >>> (8 : Nat)) >>> ((d + 1 - 1 - j) * 8)) % 256).toNat) ≠ [] := by
      simp
    obtain ⟨x, xs, hx⟩ := List.exists_cons_of_ne_nil hne
    rw [hx] at hi ⊢
    rw [decodeInt_snoc, hi, Int_shiftRight_8]
    omega

theorem decodeInt_Encode (i : Int) : der.decodeInt (asn1.int64Encoder.Encode i) = i := by
  obtain ⟨d, h1, h2, h3⟩ := Len_spec i
  unfold asn1.int64Encoder.Encode
  rw [h1]
  exact decodeInt_digits d i h2 h3


/-! ## Time contents -/

theorem civil_range (z : Int) :
    1 ≤ (Time.civil z).2.1 ∧ (Time.civil z).2.1 ≤ 12
      ∧ 1 ≤ (Time.civil z).2.2 ∧ (Time.civil z).2.2 ≤ 31 := by
  simp only [Time.civil]
  split_ifs <;> omega

theorem clock_range (t : Time) :
    t.Clock.1 < 24 ∧ t.Clock.2.1 < 60 ∧ t.Clock.2.2 < 60 := by
  simp only [Time.Clock]
  have h0 : 0 ≤ (t.sec + t.offset) % 86400 := Int.emod_nonneg _ (by norm_num)
  have h1 : (t.sec + t.offset) % 86400 < 86400 := Int.emod_lt_of_pos _ (by norm_num)
  have h2 : ((t.sec + t.offset) % 86400).toNat < 86400 := by
    have := Int.toNat_of_nonneg h0
    omega
  generalize ((t.sec + t.offset) % 86400).toNat = s at h2
  omega

theorem twoDigits_digits (v : Nat) (h : v < 100) :
    der.twoDigits ((48 + v / 10 % 10) % 256) ((48 + v % 10) % 256) = v := by
  unfold der.twoDigits
  omega

theorem isDigit_digit (w : Nat) : der.isDigit ((48 + w % 10) % 256) = true := by
  unfold der.isDigit
  simp only [Bool.and_eq_true, decide_eq_true_eq]
  show (48 : Nat) ≤ (48 + w % 10) % 256 ∧ (48 + w % 10) % 256 ≤ (57 : Nat)
  omega

theorem tdiv_60 (o : Int) :
    (0 ≤ o → Int.tdiv o 60 = o / 60) ∧ (o < 0 → Int.tdiv o 60 = -((-o) / 60)) := by
  constructor
  · intro h; exact Int.tdiv_eq_ediv h (by norm_num)
  · intro h
    have := Int.tdiv_eq_ediv (a := -o) (b := 60) (by omega) (by norm_num)
    rw [Int.neg_tdiv] at this
    omega

theorem appendTimeCommon_eq (dst : List Byte) (t : Time)
    (hoff : -360000 < t.offset ∧ t.offset < 360000) :
    ∃ zone, asn1.appendTimeCommon dst t
        = dst ++ [(48 + t.Date.2.1 / 10 % 10) % 256, (48 + t.Date.2.1 % 10) % 256,
                  (48 + t.Date.2.2 / 10 % 10) % 256, (48 + t.Date.2.2 % 10) % 256,
                  (48 + t.Clock.1 / 10 % 10) % 256, (48 + t.Clock.1 % 10) % 256,
                  (48 + t.Clock.2.1 / 10 % 10) % 256, (48 + t.Clock.2.1 % 10) % 256,
                  (48 + t.Clock.2.2 / 10 % 10) % 256, (48 + t.Clock.2.2 % 10) % 256] ++ zone
      ∧ der.decodeZone zone = some (Int.tdiv t.Zone 60) := by
  obtain ⟨hp, hn⟩ := tdiv_60 t.offset
  unfold asn1.appendTimeCommon
  simp only [asn1.appendTwoDigits, Time.Zone, List.append_assoc, List.cons_append,
    List.nil_append]
  by_cases hz : Int.tdiv t.offset 60 = 0
  · refine ⟨[90], ?_, ?_⟩
    · simp [hz]
    · simp [der.decodeZone, hz]
  · simp only [hz, if_false]
    by_cases hpos : t.offset > 0
    · simp only [hpos, if_true]
      refine ⟨43 :: [(48 + (Int.tdiv t.offset 60).natAbs / 60 / 10 % 10) % 256,
        (48 + (Int.tdiv t.offset 60).natAbs / 60 % 10) % 256,
        (48 + (Int.tdiv t.offset 60).natAbs % 60 / 10 % 10) % 256,
        (48 + (Int.tdiv t.offset 60).natAbs % 60 % 10) % 256], by simp, ?_⟩
      have e := hp (by omega)
      have hm : (Int.tdiv t.offset 60).natAbs < 6000 := by rw [e]; omega
      have hv : ((Int.tdiv t.offset 60).natAbs : Int) = Int.tdiv t.offset 60 := by
        rw [e]; omega
      generalize (Int.tdiv t.offset 60).natAbs = om at hm hv
      have hmm : om % 60 < 60 := Nat.mod_lt _ (by norm_num)
      simp only [der.decodeZone, List.cons_append, List.nil_append,
        twoDigits_digits (om / 60) (by omega), twoDigits_digits (om % 60) (by omega),
        List.all_cons, List.all_nil, isDigit_digit, hmm, decide_True, Bool.and_self, if_true]
      rw [← hv]
      congr 1
      have := Nat.div_add_mod om 60
      push_cast
      omega
    · simp only [hpos, if_false]
      refine ⟨45 :: [(48 + (Int.tdiv t.offset 60).natAbs / 60 / 10 % 10) % 256,
        (48 + (Int.tdiv t.offset 60).natAbs / 60 % 10) % 256,
        (48 + (Int.tdiv t.offset 60).natAbs % 60 / 10 % 10) % 256,
        (48 + (Int.tdiv t.offset 60).natAbs % 60 % 10) % 256], by simp, ?_⟩
      have hneg : t.offset < 0 := by
        rcases lt_trichotomy t.offset 0 with h | h | h
        · exact h
        · rw [h] at hz; simp at hz
        · exact absurd h hpos
      have e := hn hneg
      have hm : (Int.tdiv t.offset 60).natAbs < 6000 := by rw [e]; omega
      have hv : -((Int.tdiv t.offset 60).natAbs : Int) = Int.tdiv t.offset 60 := by
        rw [e]; omega
      generalize (Int.tdiv t.offset 60).natAbs = om at hm hv
      have hmm : om % 60 < 60 := Nat.mod_lt _ (by norm_num)
      simp only [der.decodeZone, List.cons_append, List.nil_append,
        twoDigits_digits (om / 60) (by omega), twoDigits_digits (om % 60) (by omega),
        List.all_cons, List.all_nil, isDigit_digit, hmm, decide_True, Bool.and_self, if_true]
      rw [← hv]
      congr 2
      have := Nat.div_add_mod om 60
      push_cast
      omega


theorem date_range (t : Time) :
    1 ≤ t.Date.2.1 ∧ t.Date.2.1 ≤ 12 ∧ 1 ≤ t.Date.2.2 ∧ t.Date.2.2 ≤ 31 := by
  have := civil_range ((t.sec + t.offset) / 86400)
  unfold Time.Date
  omega

theorem decodeTime_timeBody (t : Time) (tb : List Byte) (h : asn1.timeBody t = .ok tb)
    (hoff : -360000 < t.offset ∧ t.offset < 360000) :
    der.decodeTime (asn1.timeTag t) tb = some t.civilTime := by
  obtain ⟨hM1, hM2, hD1, hD2⟩ := date_range t
  obtain ⟨hh0, hm0, hs0⟩ := clock_range t
  have hM : t.Date.2.1 < 100 := by omega
  have hD : t.Date.2.2 < 100 := by omega
  have hh : t.Clock.1 < 100 := by omega
  have hm : t.Clock.2.1 < 100 := by omega
  have hs : t.Clock.2.2 < 100 := by omega
  unfold asn1.timeBody at h
  unfold asn1.timeTag der.decodeTime
  by_cases hout : asn1.outsideUTCRange t
  · simp only [hout, if_true, asn1.makeGeneralizedTime, asn1.appendGeneralizedTime] at h
    simp only [hout, if_true, asn1.TagGeneralizedTime, der.UTCTime, der.GeneralizedTime]
    norm_num
    split_ifs at h with hy
    simp only [Except.ok.injEq] at h
    obtain ⟨zone, hc, hz⟩ := appendTimeCommon_eq (asn1.appendFourDigits [] t.Year.toNat) t hoff
    rw [hc] at h
    rw [← h]
    have hy' : t.Year.toNat < 10000 := by omega
    have hyv : (t.Year.toNat : Int) = t.Year := by omega
    simp only [asn1.appendFourDigits, List.nil_append, List.cons_append, der.decodeGeneralizedTime,
      hz, twoDigits_digits _ hM, twoDigits_digits _ hD, twoDigits_digits _ hh,
      twoDigits_digits _ hm, twoDigits_digits _ hs, Time.civilTime,
      List.all_cons, List.all_nil, isDigit_digit, Bool.and_self, if_true,
      der.CivilTime.inRange, hM1, hM2, hD1, hD2, hh0, hm0, hs0, decide_True]
    simp only [Option.some.injEq, der.CivilTime.mk.injEq, and_true, true_and]
    rw [← hyv]
    generalize t.Year.toNat = y at hy'
    simp only [der.twoDigits]
    omega
  · simp only [hout, Bool.false_eq_true, if_false, asn1.makeUTCTime, asn1.appendUTCTime] at h
    simp only [hout, Bool.false_eq_true, if_false, asn1.TagUTCTime, der.UTCTime]
    norm_num
    split_ifs at h with hy1 hy2
    · simp only [Except.ok.injEq] at h
      obtain ⟨zone, hc, hz⟩ := appendTimeCommon_eq (asn1.appendTwoDigits [] (t.Year - 1900).toNat) t hoff
      rw [hc] at h
      rw [← h]
      have hy' : (t.Year - 1900).toNat < 100 := by omega
      simp only [asn1.appendTwoDigits, List.nil_append, List.cons_append, der.decodeUTCTime,
        hz, twoDigits_digits _ hM, twoDigits_digits _ hD, twoDigits_digits _ hh,
        twoDigits_digits _ hm, twoDigits_digits _ hs, twoDigits_digits _ hy', Time.civilTime,
        List.all_cons, List.all_nil, isDigit_digit, Bool.and_self, if_true,
        der.CivilTime.inRange, hM1, hM2, hD1, hD2, hh0, hm0, hs0, decide_True]
      simp only [Option.some.injEq, der.CivilTime.mk.injEq, and_true, true_and]
      have : 50 ≤ (t.Year - 1900).toNat := by omega
      simp only [ge_iff_le, this, if_true]
      omega
    · simp only [Except.ok.injEq] at h
      obtain ⟨zone, hc, hz⟩ := appendTimeCommon_eq (asn1.appendTwoDigits [] (t.Year - 2000).toNat) t hoff
      rw [hc] at h
      rw [← h]
      have hy' : (t.Year - 2000).toNat < 100 := by omega
      simp only [asn1.appendTwoDigits, List.nil_append, List.cons_append, der.decodeUTCTime,
        hz, twoDigits_digits _ hM, twoDigits_digits _ hD, twoDigits_digits _ hh,
        twoDigits_digits _ hm, twoDigits_digits _ hs, twoDigits_digits _ hy', Time.civilTime,
        List.all_cons, List.all_nil, isDigit_digit, Bool.and_self, if_true,
        der.CivilTime.inRange, hM1, hM2, hD1, hD2, hh0, hm0, hs0, decide_True]
      simp only [Option.some.injEq, der.CivilTime.mk.injEq, and_true, true_and]
      have : ¬ 50 ≤ (t.Year - 2000).toNat := by omega
      simp only [ge_iff_le, this, if_false]
      omega


theorem digit_mod (w : Nat) : (48 + w % 10) % 256 = 48 + w % 10 := by omega

theorem appendTimeCommon_text (dst : List Byte) (t : Time) :
    asn1.appendTimeCommon dst t
      = dst ++ (Spec.digitPair t.Date.2.1 ++ Spec.digitPair t.Date.2.2 ++ Spec.digitPair t.Clock.1
          ++ Spec.digitPair t.Clock.2.1 ++ Spec.digitPair t.Clock.2.2 ++ Spec.zoneText t.offset) := by
  unfold asn1.appendTimeCommon Spec.zoneText
  simp only [asn1.appendTwoDigits, Time.Zone, Spec.digitPair, digit_mod, List.append_assoc,
    List.cons_append, List.nil_append]
  by_cases hz : Int.tdiv t.offset 60 = 0
  · simp [hz]
  · by_cases hpos : t.offset > 0
    · simp [hz, hpos]
    · simp [hz, hpos]

theorem timeBody_eq_timeText (t : Time) (tb : List Byte) (h : asn1.timeBody t = .ok tb) :
    tb = Spec.timeText t := by
  unfold asn1.timeBody at h
  unfold Spec.timeText
  by_cases hout : asn1.outsideUTCRange t
  · have hy0 : ¬ (1950 ≤ t.Year ∧ t.Year < 2050) := by
      simp only [asn1.outsideUTCRange, Bool.or_eq_true, decide_eq_true_eq] at hout
      omega
    simp only [hout, if_true, asn1.makeGeneralizedTime, asn1.appendGeneralizedTime] at h
    split_ifs at h with hy
    simp only [Except.ok.injEq] at h
    rw [← h, appendTimeCommon_text]
    simp only [hy0, if_false, asn1.appendFourDigits, Spec.digitPair, List.nil_append,
      List.append_assoc, List.cons_append]
    have hy' : t.Year.toNat < 10000 := by omega
    generalize t.Year.toNat = y at hy'
    have e1 : (48 + y / 1000 % 10) % 256 = 48 + y / 100 / 10 % 10 := by omega
    have e2 : (48 + y / 100 % 10) % 256 = 48 + y / 100 % 10 := by omega
    have e3 : (48 + y / 10 % 10) % 256 = 48 + y % 100 / 10 % 10 := by omega
    have e4 : (48 + y % 10) % 256 = 48 + y % 100 % 10 := by omega
    rw [e1, e2, e3, e4]
  · have hy0 : 1950 ≤ t.Year ∧ t.Year < 2050 := by
      simp only [asn1.outsideUTCRange, Bool.or_eq_true, decide_eq_true_eq] at hout
      omega
    simp only [hout, Bool.false_eq_true, if_false, asn1.makeUTCTime, asn1.appendUTCTime] at h
    split_ifs at h with hy1 hy2
    · simp only [Except.ok.injEq] at h
      rw [← h, appendTimeCommon_text]
      simp only [hy0, and_self, if_true, asn1.appendTwoDigits, Spec.digitPair, List.nil_append,
        List.append_assoc, List.cons_append]
      have e1 : (48 + (t.Year - 1900).toNat / 10 % 10) % 256 = 48 + t.Year.toNat % 100 / 10 % 10 := by
        omega
      have e2 : (48 + (t.Year - 1900).toNat % 10) % 256 = 48 + t.Year.toNat % 100 % 10 := by omega
      rw [e1, e2]
    · simp only [Except.ok.injEq] at h
      rw [← h, appendTimeCommon_text]
      simp only [hy0, and_self, if_true, asn1.appendTwoDigits, Spec.digitPair, List.nil_append,
        List.append_assoc, List.cons_append]
      have e1 : (48 + (t.Year - 2000).toNat / 10 % 10) % 256 = 48 + t.Year.toNat % 100 / 10 % 10 := by
        omega
      have e2 : (48 + (t.Year - 2000).toNat % 10) % 256 = 48 + t.Year.toNat % 100 % 10 := by omega
      rw [e1, e2]


/-! ## INTEGER contents are minimal -/

theorem Len_up_min : ∀ (fuel : Nat) (i : Int) (n : Nat), i.natAbs ≤ fuel → 0 ≤ i →
    ∃ (d : Nat) (j : Int), asn1.int64Encoder.Len.up fuel i n = (j, n + d) ∧ 0 ≤ j ∧ j ≤ 127
      ∧ i < 128 * 256 ^ d ∧ (d = 0 ∨ ∃ d', d = d' + 1 ∧ 128 * 256 ^ d' ≤ i) := by
  intro fuel
  induction fuel with
  | zero =>
    intro i n h h0
    have : i = 0 := by omega
    subst this
    exact ⟨0, 0, rfl, le_refl _, by norm_num, by norm_num, Or.inl rfl⟩
  | succ fuel ih =>
    intro i n h h0
    by_cases hi : i > 127
    · simp only [asn1.int64Encoder.Len.up, hi, if_true, Int_shiftRight_8]
      obtain ⟨d, j, h1, h2, h3, h4, h5⟩ := ih (i / 256) (n + 1) (by omega) (by omega)
      refine ⟨d + 1, j, by rw [h1]; congr 1; omega, h2, h3, ?_, Or.inr ⟨d, rfl, ?_⟩⟩
      · have e : (256 : Int) ^ (d + 1) = 256 ^ d * 256 := by ring
        rw [e]
        omega
      · rcases h5 with h5 | ⟨d', h5, h6⟩
        · subst h5
          norm_num
          omega
        · subst h5
          have e : (256 : Int) ^ (d' + 1) = 256 ^ d' * 256 := by ring
          rw [e]
          omega
    · rw [Len_up_small _ _ _ (by omega)]
      exact ⟨0, i, rfl, h0, by omega, by norm_num; omega, Or.inl rfl⟩

theorem Len_down_min : ∀ (fuel : Nat) (i : Int) (n : Nat), i.natAbs ≤ fuel → i < 0 →
    ∃ d : Nat, (asn1.int64Encoder.Len.down fuel i n).2 = n + d ∧ -(128 * 256 ^ d) ≤ i
      ∧ (d = 0 ∨ ∃ d', d = d' + 1 ∧ i < -(128 * 256 ^ d')) := by
  intro fuel
  induction fuel with
  | zero => intro i n h h0; omega
  | succ fuel ih =>
    intro i n h h0
    by_cases hi : i < -128
    · simp only [asn1.int64Encoder.Len.down, hi, if_true, Int_shiftRight_8]
      obtain ⟨d, h1, h2, h3⟩ := ih (i / 256) (n + 1) (by omega) (by omega)
      refine ⟨d + 1, by rw [h1]; omega, ?_, Or.inr ⟨d, rfl, ?_⟩⟩
      · have e : (256 : Int) ^ (d + 1) = 256 ^ d * 256 := by ring
        rw [e]
        omega
      · rcases h3 with h3 | ⟨d', h3, h4⟩
        · subst h3
          norm_num
          omega
        · subst h3
          have e : (256 : Int) ^ (d' + 1) = 256 ^ d' * 256 := by ring
          rw [e]
          omega
    · rw [Len_down_small _ _ _ (by omega)]
      exact ⟨0, rfl, by norm_num; omega, Or.inl rfl⟩

theorem Len_min (i : Int) :
    ∃ d : Nat, asn1.int64Encoder.Len i = d + 1 ∧ -(128 * 256 ^ d) ≤ i ∧ i < 128 * 256 ^ d
      ∧ (d = 0 ∨ ∃ d', d = d' + 1 ∧ (128 * 256 ^ d' ≤ i ∨ i < -(128 * 256 ^ d'))) := by
  unfold asn1.int64Encoder.Len
  by_cases h0 : 0 ≤ i
  · obtain ⟨d, j, h1, h2, h3, h4, h5⟩ := Len_up_min i.natAbs i 1 (le_refl _) h0
    simp only [h1]
    rw [Len_down_small _ _ _ (by omega)]
    refine ⟨d, by simp only; omega, ?_, h4, ?_⟩
    · have : (0 : Int) < 256 ^ d := by positivity
      omega
    · rcases h5 with h5 | ⟨d', h5, h6⟩
      · exact Or.inl h5
      · exact Or.inr ⟨d', h5, Or.inl h6⟩
  · rw [Len_up_small _ _ _ (by omega)]
    obtain ⟨d, h1, h2, h3⟩ := Len_down_min i.natAbs i 1 (le_refl _) (by omega)
    refine ⟨d, by simp only; rw [h1]; omega, h2, ?_, ?_⟩
    · have : (0 : Int) < 256 ^ d := by positivity
      omega
    · rcases h3 with h3 | ⟨d', h3, h4⟩
      · exact Or.inl h3
      · exact Or.inr ⟨d', h3, Or.inr h4⟩

theorem shiftRight_bounds (i : Int) (d : Nat) (a b : Int) :
    (a * 256 ^ d ≤ i → a ≤ i >>> (d * 8)) ∧ (i < b * 256 ^ d → i >>> (d * 8) < b) := by
  have hp : (0 : Int) < 256 ^ d := by positivity
  have e : (2 : Int) ^ (d * 8) = 256 ^ d := by
    rw [Nat.mul_comm, pow_mul]; norm_num
  rw [Int.shiftRight_eq_div_pow]
  push_cast
  rw [e]
  exact ⟨fun h => (Int.le_ediv_iff_mul_le hp).mpr h, fun h => (Int.ediv_lt_iff_lt_mul hp).mpr h⟩

theorem minimalInt_Encode (i : Int) : der.minimalInt (asn1.int64Encoder.Encode i) = true := by
  obtain ⟨d, h1, h2, h3, h4⟩ := Len_min i
  unfold asn1.int64Encoder.Encode
  rw [h1]
  rcases h4 with h4 | ⟨d', h4, h5⟩
  · subst h4
    simp [der.minimalInt, List.range_succ]
  · subst h4
    rw [List.range_succ_eq_map, List.range_succ_eq_map]
    simp only [List.map_cons, der.minimalInt]
    have e0 : (d' + 1 + 1 - 1 - 0) * 8 = d' * 8 + 8 := by omega
    have e1 : (d' + 1 + 1 - 1 - (0 + 1)) * 8 = d' * 8 := by omega
    rw [e0, e1, Int.shiftRight_add, Int_shiftRight_8]
    have e : (256 : Int) ^ (d' + 1) = 256 ^ d' * 256 := by ring
    rw [e] at h2 h3
    have b1 := (shiftRight_bounds i d' (-(128 * 256)) (128 * 256)).1 (by linarith)
    have b2 := (shiftRight_bounds i d' (-(128 * 256)) (128 * 256)).2 (by linarith)
    have b3 : 128 ≤ i >>> (d' * 8) ∨ i >>> (d' * 8) < -128 := by
      rcases h5 with h5 | h5
      · exact Or.inl ((shiftRight_bounds i d' 128 0).1 h5)
      · exact Or.inr ((shiftRight_bounds i d' 0 (-128)).2 (by linarith))
    generalize i >>> (d' * 8) = q at b1 b2 b3
    have hq0 : 0 ≤ q % 256 := Int.emod_nonneg q (by norm_num)
    have hq1 : 0 ≤ q / 256 % 256 := Int.emod_nonneg _ (by norm_num)
    have t0 : ((q % 256).toNat : Int) = q % 256 := Int.toNat_of_nonneg hq0
    have t1 : ((q / 256 % 256).toNat : Int) = q / 256 % 256 := Int.toNat_of_nonneg hq1
    generalize (q % 256).toNat = c1 at t0
    generalize (q / 256 % 256).toNat = c0 at t1
    simp only [Bool.not_eq_true', Bool.or_eq_false_iff, Bool.and_eq_false_imp, beq_iff_eq,
      decide_eq_false_iff_not]
    constructor
    · intro hc0
      have hc : c0 = (0 : Nat) := hc0
      show ¬ (c1 < (128 : Nat))
      omega
    · intro hc0
      have hc : c0 = (255 : Nat) := hc0
      show ¬ ((128 : Nat) ≤ c1)
      omega

/-! ## The schema and the elements written -/

theorem timeTag_eq (t : Time) :
    asn1.timeTag t = if 1950 ≤ t.Year ∧ t.Year < 2050 then der.UTCTime else der.GeneralizedTime := by
  unfold asn1.timeTag asn1.outsideUTCRange
  by_cases h : 1950 ≤ t.Year ∧ t.Year < 2050
  · have h1 : ¬ t.Year < 1950 := by omega
    have h2 : ¬ t.Year ≥ 2050 := by omega
    simp [h, h1, h2, der.UTCTime, asn1.TagUTCTime]
  · have h3 : t.Year < 1950 ∨ t.Year ≥ 2050 := by omega
    rcases h3 with h3 | h3 <;> simp [h, h3, der.GeneralizedTime, asn1.TagGeneralizedTime]

theorem conforms_written (h : FileHeader) (tb : List Byte) :
    der.conforms der.writtenSchema (h.elements tb) = true := by
  have ht := timeTag_eq h.Modified
  by_cases hy : 1950 ≤ h.Modified.Year ∧ h.Modified.Year < 2050
  · simp only [hy, and_self, if_true] at ht
    simp [der.conforms, der.writtenSchema, FileHeader.elements, ht, der.INTEGER, der.UTF8String,
      der.UTCTime, der.GeneralizedTime, asn1.TagInteger, asn1.TagUTF8String]
  · simp only [hy, if_false] at ht
    simp [der.conforms, der.writtenSchema, FileHeader.elements, ht, der.INTEGER, der.UTF8String,
      der.UTCTime, der.GeneralizedTime, asn1.TagInteger, asn1.TagUTF8String]

theorem conforms_declared (h : FileHeader) (tb : List Byte) :
    der.conforms der.declaredSchema (h.elements tb) = false := by
  simp [der.conforms, der.declaredSchema, FileHeader.elements, der.ENUMERATED, asn1.TagInteger]


/-! ## The record on the wire -/

/-- For every record whose encoding succeeds, the first and the last element
of the header SEQUENCE carry the file type and the format with the
identifier octet of INTEGER. -/
theorem enumerations_are_INTEGER_on_wire (i : TarItemAsn1) (bs : List Byte)
    (hb : i.ToDerBytes = .ok bs) (hlen : bs.length < 2 ^ 63) :
    ∃ es content, der.parseRecord bs = some (es, content) ∧ es.length = 11
      ∧ es[0]? = some (der.INTEGER, asn1.int64Encoder.Encode i.FileHeader.FileType)
      ∧ es[10]? = some (der.INTEGER, asn1.int64Encoder.Encode i.FileHeader.Format) := by
  obtain ⟨tb, _, hp⟩ := parseRecord_ToDerBytes i bs hb hlen
  exact ⟨_, _, hp, rfl, rfl, rfl⟩

/-- Claim C6, evaluated on the record for `a.txt` (file type Regular, format
PAX): in the bytes of `TarItemAsn1.ToDerBytes` and of `FileHeader.ToDerBytes`
the header SEQUENCE has fileType as its first and format as its last
element, with the assigned values 0x10 and 0x20, but both elements carry the
identifier octet 0x02 of INTEGER, not 0x0A of ENUMERATED. -/
theorem C6_enumerations_written_as_INTEGER :
    Sample.item.ToDerBytes = .ok Sample.der
    ∧ Sample.item.FileHeader.ToDerBytes = .ok Sample.headerDer
    ∧ der.parseHeader Sample.headerDer
        = some [(0x02, [0x10]), (0x0c, ascii "a.txt"), (0x0c, []), (0x02, [0x02]),
            (0x02, [0x01, 0xa4]), (0x02, [0x03, 0xe8]), (0x02, [0x03, 0xe8]), (0x0c, ascii "u"),
            (0x0c, ascii "g"), (0x17, ascii "231114221320Z"), (0x02, [0x20])]
    ∧ der.parseRecord Sample.der
        = some ([(0x02, [0x10]), (0x0c, ascii "a.txt"), (0x0c, []), (0x02, [0x02]),
            (0x02, [0x01, 0xa4]), (0x02, [0x03, 0xe8]), (0x02, [0x03, 0xe8]), (0x0c, ascii "u"),
            (0x0c, ascii "g"), (0x17, ascii "231114221320Z"), (0x02, [0x20])], [0x68, 0x69])
    ∧ der.INTEGER = 0x02 ∧ der.ENUMERATED = 0x0A
    ∧ Sample.item.FileHeader.FileType = FileTypeRegular
    ∧ Sample.item.FileHeader.Format = FormatPAX := by
  refine ⟨by decide, by decide, by decide, by decide, rfl, rfl, by decide, by decide⟩

/-- Claim C7 as stated fails: the record for `a.txt`, modified in 2023,
encodes successfully, and the tenth element of its header SEQUENCE carries
the identifier octet of UTCTime (tag 23), not of GeneralizedTime (tag 24). -/
theorem C7_counterexample :
    Sample.item.ToDerBytes = .ok Sample.der
    ∧ (der.parseRecord Sample.der).map (fun p => p.1[9]?)
        = some (some (der.UTCTime, ascii "231114221320Z"))
    ∧ der.UTCTime = asn1.TagUTCTime ∧ asn1.TagUTCTime = 23
    ∧ der.UTCTime ≠ der.GeneralizedTime := by
  refine ⟨by decide, by decide, rfl, rfl, by decide⟩

/-- Claim C7, amended: for every record whose encoding succeeds, the tenth
element of the header SEQUENCE in the bytes of `TarItemAsn1.ToDerBytes` is
the modification time. It carries the identifier octet of UTCTime (universal
tag 23) when the year of the time, taken in the zone of the time value
itself, lies in 1950 to 2049, and that of GeneralizedTime (universal tag 24)
for every other year. Its contents are the year (two digits for a UTCTime,
four for a GeneralizedTime), month, day, hour, minute and second in that
zone, followed by `Z` when the zone offset is less than a minute and by the
offset as `+hhmm` or `-hhmm` otherwise. -/
theorem C7_time_is_UTCTime_or_GeneralizedTime (i : TarItemAsn1) (bs : List Byte)
    (hb : i.ToDerBytes = .ok bs) (hlen : bs.length < 2 ^ 63) :
    ∃ es content, der.parseRecord bs = some (es, content) ∧ es.length = 11
      ∧ es[9]? = some
          (if 1950 ≤ i.FileHeader.Modified.Year ∧ i.FileHeader.Modified.Year < 2050
            then der.UTCTime else der.GeneralizedTime,
           Spec.timeText i.FileHeader.Modified)
      ∧ (1950 ≤ i.FileHeader.Modified.Year ∧ i.FileHeader.Modified.Year < 2050
          ∨ 0 ≤ i.FileHeader.Modified.Year ∧ i.FileHeader.Modified.Year ≤ 9999) := by
  obtain ⟨tb, ht, hp⟩ := parseRecord_ToDerBytes i bs hb hlen
  refine ⟨_, _, hp, rfl, ?_, ?_⟩
  · simp only [FileHeader.elements, List.getElem?_cons_succ, List.getElem?_cons_zero,
      Option.some.injEq, Prod.mk.injEq]
    exact ⟨timeTag_eq _, timeBody_eq_timeText _ _ ht⟩
  · unfold asn1.timeBody at ht
    by_cases hout : asn1.outsideUTCRange i.FileHeader.Modified
    · simp only [hout, if_true, asn1.makeGeneralizedTime, asn1.appendGeneralizedTime] at ht
      split_ifs at ht with hy
      right
      omega
    · simp only [asn1.outsideUTCRange, Bool.or_eq_true, decide_eq_true_eq] at hout
      left
      omega

theorem C7_witness :
    Sample.item.ToDerBytes = .ok Sample.der ∧ Sample.der.length < 2 ^ 63
    ∧ ∃ es content, der.parseRecord Sample.der = some (es, content) ∧ es.length = 11
      ∧ es[9]? = some
          (if 1950 ≤ Sample.item.FileHeader.Modified.Year
              ∧ Sample.item.FileHeader.Modified.Year < 2050
            then der.UTCTime else der.GeneralizedTime,
           Spec.timeText Sample.item.FileHeader.Modified)
      ∧ (1950 ≤ Sample.item.FileHeader.Modified.Year
            ∧ Sample.item.FileHeader.Modified.Year < 2050
          ∨ 0 ≤ Sample.item.FileHeader.Modified.Year
            ∧ Sample.item.FileHeader.Modified.Year ≤ 9999) :=
  ⟨by decide, by decide,
    C7_time_is_UTCTime_or_GeneralizedTime Sample.item Sample.der (by decide) (by decide)⟩

/-- The time element across a change of year. The instant 2050-01-01
00:30:00 UTC shown at -01:00 has the year 2049 in its zone and is written as
the UTCTime `491231233000-0100`; the instant 2049-12-31 23:30:00 UTC shown at
+01:00 has the year 2050 in its zone and is written as the GeneralizedTime
`20500101003000+0100`. -/
theorem time_element_across_new_year :
    asn1.makeField (.time Sample.newYearWest) (asn1.parseFieldParameters "")
      = .ok ([0x17, 0x11] ++ ascii "491231233000-0100")
    ∧ asn1.makeField (.time Sample.newYearEast) (asn1.parseFieldParameters "")
      = .ok ([0x18, 0x13] ++ ascii "20500101003000+0100")
    ∧ Spec.timeText Sample.newYearWest = ascii "491231233000-0100"
    ∧ Spec.timeText Sample.newYearEast = ascii "20500101003000+0100" := by
  refine ⟨by decide, by decide, by decide, by decide⟩

/-- Claim C8 as stated fails. Two records that differ in the part of the
modification time below one second encode to the same bytes, so the encoding
does not determine the record. And a decoder that holds the bytes to the
schema as declared (fileType ENUMERATED, modifiedTime GeneralizedTime)
rejects them, while the schema with the types that are written accepts
them. -/
theorem C8_counterexample :
    Sample.item.ToDerBytes = .ok Sample.der
    ∧ Sample.itemLater.ToDerBytes = .ok Sample.der
    ∧ Sample.item.FileHeader.Modified ≠ Sample.itemLater.FileHeader.Modified
    ∧ Sample.item ≠ Sample.itemLater
    ∧ der.decodeRecord der.declaredSchema Sample.der = none
    ∧ der.decodeRecord der.writtenSchema Sample.der = some Sample.item.decoded := by
  refine ⟨by decide, by decide, by decide, by decide, by decide, by decide⟩

/-- A text field is written as it is: a name that is not valid UTF-8 is
encoded as the contents of a UTF8String, and a decoder that checks the
contents rejects the bytes. -/
theorem name_not_UTF8_on_sample :
    (∃ bs, Sample.itemBadName.ToDerBytes = .ok bs
      ∧ (der.parseRecord bs).map (fun p => p.1[1]?) = some (some (der.UTF8String, [0xff]))
      ∧ der.decodeRecord der.writtenSchema bs = none)
    ∧ utf8.ValidString [0xff] = false := by
  refine ⟨⟨_, rfl, by decide, by decide⟩, by decide⟩

/-- Claim C8, amended: for every record whose encoding succeeds (the bytes
fitting a Go slice, the zone offset of the modification time below 100
hours), decoding the bytes by the binary schema with fileType and format
read as INTEGER and modifiedTime read as UTCTime or GeneralizedTime (the
types and forms that are written) succeeds when the name, the link target
and the owner and group names are valid UTF-8, and recovers the file type,
name, link target, size, mode, owner and group ids and names, format and
content exactly, and of the modification time its date, its time of day to
the whole second and its zone offset in whole minutes; with a text field
that is not valid UTF-8 the bytes are rejected. Decoding by the schema as
declared rejects the bytes of every record. Two records that encode to the
same bytes agree in all the values named. The part of the modification time
below one second is not on the wire. -/
theorem C8_round_trip_to_the_second (i : TarItemAsn1) (bs : List Byte)
    (hb : i.ToDerBytes = .ok bs) (hlen : bs.length < 2 ^ 63)
    (hoff : -360000 < i.FileHeader.Modified.offset ∧ i.FileHeader.Modified.offset < 360000) :
    der.decodeRecord der.writtenSchema bs
        = (if utf8.ValidString i.FileHeader.Name ∧ utf8.ValidString i.FileHeader.Linkname
              ∧ utf8.ValidString i.FileHeader.Uname ∧ utf8.ValidString i.FileHeader.Gname
            then some i.decoded else none)
    ∧ der.decodeRecord der.declaredSchema bs = none
    ∧ ∀ j : TarItemAsn1, j.ToDerBytes = .ok bs →
        -360000 < j.FileHeader.Modified.offset ∧ j.FileHeader.Modified.offset < 360000 →
        j.decoded = i.decoded := by
  obtain ⟨tb, ht, hp⟩ := parseRecord_ToDerBytes i bs hb hlen
  have hd := decodeTime_timeBody i.FileHeader.Modified tb ht hoff
  refine ⟨?_, ?_, ?_⟩
  · have hc := conforms_written i.FileHeader tb
    simp only [FileHeader.elements] at hc
    simp only [der.decodeRecord, hp, FileHeader.elements, hc, hd, decodeInt_Encode,
      minimalInt_Encode, TarItemAsn1.decoded, List.all_cons, List.all_nil, Bool.and_true,
      Bool.true_and, Bool.and_eq_true]
  · have hc := conforms_declared i.FileHeader tb
    simp only [FileHeader.elements] at hc
    simp only [der.decodeRecord, hp, FileHeader.elements, hc, Bool.false_and,
      Bool.false_eq_true, if_false]
  · intro j hj hjo
    obtain ⟨tbj, htj, hpj⟩ := parseRecord_ToDerBytes j bs hj hlen
    have hdj := decodeTime_timeBody j.FileHeader.Modified tbj htj hjo
    rw [hp] at hpj
    simp only [FileHeader.elements, Option.some.injEq, Prod.mk.injEq, List.cons.injEq,
      and_true, true_and] at hpj
    obtain ⟨⟨e0, e1, e2, e3, e4, e5, e6, e7, e8, ⟨e9, e9b⟩, e10⟩, ec⟩ := hpj
    have d0 := congrArg der.decodeInt e0
    have d3 := congrArg der.decodeInt e3
    have d4 := congrArg der.decodeInt e4
    have d5 := congrArg der.decodeInt e5
    have d6 := congrArg der.decodeInt e6
    have d10 := congrArg der.decodeInt e10
    rw [decodeInt_Encode, decodeInt_Encode] at d0 d3 d4 d5 d6 d10
    rw [e9, e9b, hdj] at hd
    have dt := Option.some.inj hd
    simp only [TarItemAsn1.decoded, der.Decoded.mk.injEq]
    exact ⟨d0.symm, e1.symm, e2.symm, d3.symm, d4.symm, d5.symm, d6.symm, e7.symm, e8.symm,
      dt, d10.symm, ec.symm⟩

theorem C8_witness :
    Sample.itemLater.ToDerBytes = .ok Sample.der ∧ Sample.der.length < 2 ^ 63
    ∧ (-360000 < Sample.itemLater.FileHeader.Modified.offset
        ∧ Sample.itemLater.FileHeader.Modified.offset < 360000)
    ∧ der.decodeRecord der.writtenSchema Sample.der
        = (if utf8.ValidString Sample.itemLater.FileHeader.Name
              ∧ utf8.ValidString Sample.itemLater.FileHeader.Linkname
              ∧ utf8.ValidString Sample.itemLater.FileHeader.Uname
              ∧ utf8.ValidString Sample.itemLater.FileHeader.Gname
            then some Sample.itemLater.decoded else none)
    ∧ der.decodeRecord der.declaredSchema Sample.der = none
    ∧ ∀ j : TarItemAsn1, j.ToDerBytes = .ok Sample.der →
        -360000 < j.FileHeader.Modified.offset ∧ j.FileHeader.Modified.offset < 360000 →
        j.decoded = Sample.itemLater.decoded :=
  ⟨by decide, by decide, by decide,
    C8_round_trip_to_the_second Sample.itemLater Sample.der (by decide) (by decide) (by decide)⟩

/-! ## The whole pipeline -/

/-- The sequence of `ToItems` is, to every consumer, the sequence of the
outcomes of the archive; so what is shown above for a sequence of outcomes
holds of `WriteItems` and `WriteAll` run on `ToItems`. -/
theorem ToItems_is_seqOf_outcomes {κ : Type} (r : TarReader) (limit : Int) (room : Nat → Nat) :
    (r.ToItems limit room : Seq2 κ)
      = seqOf (archiveOutcomes limit r.Reader.trailer r.Reader.fault r.Reader.rest) := by
  funext yield k
  exact ToItems_eq_seqOf r limit room yield k

/-- The pipeline on the archive that holds `a.txt`: one part, then the
closing boundary, and no error. -/
theorem pipeline_on_sample :
    Writer.WriteAll { Writer := Sample.sink } Sample.boundary Sample.live
        (Sample.reader.ToItems 1048576 Sample.room)
      = some (none,
          { w := { out := Spec.parts Sample.boundary [Sample.der] ++ Spec.closing Sample.boundary,
                   faults := [] },
            boundary := Sample.boundary, lastpart := none }) := by
  decide

end tar2mpart
